import Mathlib

/-!
# Verification of the ant2oa proxy core

A shallow embedding of the ant2oa reverse proxy (Go) in Lean 4, together
with theorems settling the specification claims about it.

Conventions of the embedding:
* Go strings handled byte-wise by the code (the streaming content buffer,
  SSE payload fragments) are modelled as `List Char`; all tag and marker
  characters involved are single-byte ASCII, so byte positions and
  character positions coincide on the inputs of interest.
* Go maps used as lookup tables are modelled as association lists.
* External effects (HTTP transport, JSON decoding, the regexp engine,
  wall-clock time) appear as explicit inputs: a list of attempt outcomes
  for the dispatcher, already-decoded chunk structures for the streaming
  translator, a match oracle for the route resolver, and an explicit
  `now` for the rate limiter.
-/

namespace Ant2oa

/-! ## List/string utilities shared by several components

These model the `strings` package functions the Go source calls:
`strings.Index`, `strings.LastIndexByte`, `strings.Contains`,
`strings.Split`, `strings.HasPrefix`, `strings.TrimPrefix`. -/

/-- Model of `strings.HasPrefix`: `needle` is a prefix of `hay`. -/
def isPrefixList (needle hay : List Char) : Bool :=
  match needle, hay with
  | [], _ => true
  | _ :: _, [] => false
  | n :: ns, h :: hs => n == h && isPrefixList ns hs

/-- Model of `strings.Index`: index of the first occurrence of `needle` in `hay`,
`none` when absent (Go returns `-1`). -/
def findSub (needle hay : List Char) : Option Nat :=
  match hay with
  | [] => if isPrefixList needle [] then some 0 else none
  | _ :: hs =>
    if isPrefixList needle hay then some 0
    else (findSub needle hs).map (· + 1)

/-- Model of `strings.Contains` for a substring. -/
def containsSub (needle hay : List Char) : Bool :=
  (findSub needle hay).isSome

/-- Model of `strings.LastIndexByte`: index of the last occurrence of byte `c`. -/
def lastIndexByte (c : Char) (hay : List Char) : Option Nat :=
  match hay with
  | [] => none
  | h :: hs =>
    match lastIndexByte c hs with
    | some i => some (i + 1)
    | none => if h == c then some 0 else none

theorem isPrefixList_append (needle rest : List Char) :
    isPrefixList needle (needle ++ rest) = true := by
  induction needle with
  | nil => simp [isPrefixList]
  | cons n ns ih => simp [isPrefixList, ih]

theorem isPrefixList_iff_isPrefix (needle hay : List Char) :
    isPrefixList needle hay = true ↔ needle <+: hay := by
  induction needle generalizing hay with
  | nil => simp [isPrefixList]
  | cons n ns ih =>
    cases hay with
    | nil => simp [isPrefixList]
    | cons h hs =>
      simp only [isPrefixList, List.cons_prefix_cons, Bool.and_eq_true, beq_iff_eq, ih]

theorem findSub_some_le (needle hay : List Char) (i : Nat)
    (h : findSub needle hay = some i) : i + needle.length ≤ hay.length := by
  induction hay generalizing i with
  | nil =>
    simp only [findSub] at h
    split at h
    · rename_i hp
      cases needle with
      | nil => simp_all
      | cons n ns => simp [isPrefixList] at hp
    · exact absurd h (by simp)
  | cons x xs ih =>
    simp only [findSub] at h
    split at h
    · rename_i hp
      have hlen := ((isPrefixList_iff_isPrefix _ _).1 hp).length_le
      simp only [Option.some.injEq] at h
      simp only [List.length_cons] at hlen ⊢
      omega
    · rcases Option.map_eq_some'.1 h with ⟨j, hj, rfl⟩
      have := ih j hj
      simp only [List.length_cons]
      omega

/-- Containment via `containsSub` for a one-byte needle is list membership. -/
theorem containsSub_singleton (c : Char) (hay : List Char) :
    containsSub [c] hay = true ↔ c ∈ hay := by
  induction hay with
  | nil => simp [containsSub, findSub, isPrefixList]
  | cons h hs ih =>
    simp only [containsSub, findSub, isPrefixList, List.mem_cons] at *
    by_cases hc : c = h
    · simp [hc]
    · have hbeq : (c == h) = false := by simp [hc]
      simp only [hbeq, Bool.false_and, Bool.false_eq_true, if_false,
        Option.isSome_map]
      simp [ih, hc]

/-- The search `lastIndexByte` finds something exactly when the byte occurs. -/
theorem lastIndexByte_isSome (c : Char) (hay : List Char) :
    (lastIndexByte c hay).isSome = true ↔ c ∈ hay := by
  induction hay with
  | nil => simp [lastIndexByte]
  | cons h hs ih =>
    simp only [lastIndexByte]
    cases hlast : lastIndexByte c hs with
    | some i =>
      rw [hlast] at ih
      simp only [Option.isSome_some, true_iff] at ih
      simp [ih]
    | none =>
      rw [hlast] at ih
      simp only [Option.isSome_none, Bool.false_eq_true, false_iff] at ih
      by_cases hc : h = c
      · simp [hc]
      · have hbeq : (h == c) = false := by simp [hc]
        simp only [hbeq, Bool.false_eq_true, if_false, Option.isSome_none,
          Bool.false_eq_true, false_iff, List.mem_cons]
        rintro (rfl | hmem)
        · exact hc rfl
        · exact ih hmem

/-- Model of `strings.Split` for a non-empty separator (the source only splits on
the literal tags `<think>` and `</think>`). -/
def splitOnTag (needle hay : List Char) : List (List Char) :=
  if hne : needle.isEmpty then [hay]
  else
    match h : findSub needle hay with
    | none => [hay]
    | some i =>
      hay.take i :: splitOnTag needle (hay.drop (i + needle.length))
termination_by hay.length
decreasing_by
  have hle := findSub_some_le needle hay i h
  have : needle.length ≠ 0 := by
    cases needle with
    | nil => simp at hne
    | cons a as => simp
  simp only [List.length_drop]
  omega

/-! ## Upstream dispatcher retry loop (`src/proxy.go`, `forwardOAMap`)

The transport is external, so each iteration's outcome is an input: either
the transport failed (`HttpClient.Do` returned an error, no response) or a
response with some status arrived.  The Go loop is

```
maxRetries := 3
for i := 0; i <= maxRetries; i++ { ... }
```

where a transport error at `i >= maxRetries` returns 502 to the client,
a transport error earlier waits `2^i` seconds and retries, a status with
`resp.StatusCode != 429 && resp.StatusCode < 500` breaks out of the loop,
and any other status retries after `2^i` seconds while `i < maxRetries`
(after the last attempt the loop simply ends and the last response's
status is forwarded by the non-200 handler). -/

/-- What the external HTTP transport did on one attempt. -/
inductive AttemptOutcome where
  | transportError
  | response (status : Nat)
deriving DecidableEq, Repr

/-- What the client-facing side of the dispatcher ends up doing. -/
inductive DispatchResult where
  | clientError (code : Nat)
  | upstream (status : Nat)
deriving DecidableEq, Repr

def maxRetries : Nat := 3

/-- Whether an attempt with this outcome is retried (budget permitting):
the Go code retries on transport failure, and on any status for which the
break test `resp.StatusCode != 429 && resp.StatusCode < 500` fails. -/
def retryOutcome : AttemptOutcome → Bool
  | .transportError => true
  | .response s => if s ≠ 429 ∧ s < 500 then false else true

/-- Result of the dispatcher if the final attempt had this outcome. -/
def resultFor : AttemptOutcome → DispatchResult
  | .transportError => .clientError 502
  | .response s => .upstream s

/-- The retry loop of `forwardOAMap`, one recursive call per iteration,
consuming the next attempt outcome.  Returns the client-visible result,
the number of POST attempts made, and the list of backoff waits (in
seconds) performed between attempts. -/
def retryLoop (i : Nat) : List AttemptOutcome → DispatchResult × Nat × List Nat
  | [] => (.clientError 502, 0, [])
  | oc :: rest =>
    match oc with
    | .transportError =>
      if maxRetries ≤ i then (.clientError 502, 1, [])
      else
        let (r, n, ws) := retryLoop (i + 1) rest
        (r, n + 1, 2 ^ i :: ws)
    | .response s =>
      if s ≠ 429 ∧ s < 500 then (.upstream s, 1, [])
      else if i < maxRetries then
        let (r, n, ws) := retryLoop (i + 1) rest
        (r, n + 1, 2 ^ i :: ws)
      else (.upstream s, 1, [])

/-- The dispatcher starts the loop at `i = 0`. -/
def dispatch (outcomes : List AttemptOutcome) : DispatchResult × Nat × List Nat :=
  retryLoop 0 outcomes

/-- C4 counterexample: with four consecutive transport failures the
dispatcher performs 4 POST attempts, not at most 3 as claimed; and with
four consecutive 429 responses the client receives status 429 forwarded
verbatim, not 502, after the final failed attempt. -/
theorem dispatch_four_attempts_counterexample :
    dispatch [.transportError, .transportError, .transportError, .transportError]
      = (.clientError 502, 4, [1, 2, 4]) ∧
    ¬ (dispatch [.transportError, .transportError, .transportError,
        .transportError]).2.1 ≤ 3 ∧
    dispatch [.response 429, .response 429, .response 429, .response 429]
      = (.upstream 429, 4, [1, 2, 4]) ∧
    (dispatch [.response 429, .response 429, .response 429,
        .response 429]).1 ≠ .clientError 502 := by
  refine ⟨by decide, by decide, by decide, by decide⟩

/-- Behaviour of the retry loop from any iteration index `i ≤ maxRetries`,
given at least `maxRetries + 1 - i` available outcomes (the loop never
consumes more). -/
theorem retryLoop_spec (os : List AttemptOutcome) :
    ∀ i, i ≤ maxRetries → maxRetries + 1 ≤ i + os.length →
    1 ≤ (retryLoop i os).2.1 ∧
    i + (retryLoop i os).2.1 ≤ maxRetries + 1 ∧
    (retryLoop i os).2.2
      = (List.range' i ((retryLoop i os).2.1 - 1)).map (fun k => 2 ^ k) ∧
    (os.take ((retryLoop i os).2.1 - 1)).all retryOutcome = true ∧
    (i + (retryLoop i os).2.1 < maxRetries + 1 →
      retryOutcome (os.getD ((retryLoop i os).2.1 - 1) .transportError)
        = false) ∧
    (retryLoop i os).1
      = resultFor (os.getD ((retryLoop i os).2.1 - 1) .transportError) := by
  induction os with
  | nil =>
    intro i hi hlen
    simp only [List.length_nil] at hlen
    omega
  | cons oc rest ih =>
    intro i hi hlen
    match oc with
    | .transportError =>
      by_cases hcap : maxRetries ≤ i
      · simp only [retryLoop, if_pos hcap]
        refine ⟨le_refl 1, by omega, by simp, by simp, by omega, by
          simp [resultFor]⟩
      · rcases hr : retryLoop (i + 1) rest with ⟨r, n, ws⟩
        have hrest := ih (i + 1) (by omega)
          (by simp only [List.length_cons] at hlen; omega)
        rw [hr] at hrest
        obtain ⟨h1, h2, h3, h4, h5, h6⟩ := hrest
        dsimp only at h1 h2 h3 h4 h5 h6
        simp only [retryLoop, if_neg hcap, hr]
        refine ⟨by omega, by omega, ?_, ?_, ?_, ?_⟩
        · have : n + 1 - 1 = (n - 1) + 1 := by omega
          rw [this, List.range'_succ]
          simp [h3]
        · have : n + 1 - 1 = (n - 1) + 1 := by omega
          rw [this, List.take_succ_cons]
          simp only [List.all_cons, h4, Bool.and_true]
          rfl
        · intro hlt
          have : n + 1 - 1 = (n - 1) + 1 := by omega
          rw [this, List.getD_cons_succ]
          exact h5 (by omega)
        · have : n + 1 - 1 = (n - 1) + 1 := by omega
          rw [this, List.getD_cons_succ]
          exact h6
    | .response s =>
      by_cases hbrk : s ≠ 429 ∧ s < 500
      · simp only [retryLoop, if_pos hbrk]
        refine ⟨le_refl 1, by omega, by simp, by simp, ?_, by simp [resultFor]⟩
        intro _
        simp [retryOutcome, hbrk]
      · simp only [retryLoop, if_neg hbrk]
        by_cases hcap : i < maxRetries
        · rcases hr : retryLoop (i + 1) rest with ⟨r, n, ws⟩
          have hrest := ih (i + 1) (by omega)
            (by simp only [List.length_cons] at hlen; omega)
          rw [hr] at hrest
          obtain ⟨h1, h2, h3, h4, h5, h6⟩ := hrest
          dsimp only at h1 h2 h3 h4 h5 h6
          simp only [if_pos hcap, hr]
          refine ⟨by omega, by omega, ?_, ?_, ?_, ?_⟩
          · have : n + 1 - 1 = (n - 1) + 1 := by omega
            rw [this, List.range'_succ]
            simp [h3]
          · have : n + 1 - 1 = (n - 1) + 1 := by omega
            rw [this, List.take_succ_cons]
            simp only [List.all_cons, h4, Bool.and_true]
            simp [retryOutcome, hbrk]
          · intro hlt
            have : n + 1 - 1 = (n - 1) + 1 := by omega
            rw [this, List.getD_cons_succ]
            exact h5 (by omega)
          · have : n + 1 - 1 = (n - 1) + 1 := by omega
            rw [this, List.getD_cons_succ]
            exact h6
        · simp only [if_neg hcap]
          refine ⟨le_refl 1, by omega, by simp, by simp, by omega, by
            simp [resultFor]⟩

/-- C4 (amended): the dispatcher makes between 1 and 4 POST attempts (an
initial attempt plus up to `maxRetries = 3` retries); the wait before
retrying after zero-based attempt `i` is `2^i` seconds; every non-final
attempt was retried because its outcome was retryable (transport failure
or status 429/≥500); if the loop ended before exhausting the budget, the
final outcome was a non-retryable status; after a final transport failure
the client receives 502, and otherwise the final response's status is
what the client-facing side proceeds with. -/
theorem dispatch_retry_policy (o0 o1 o2 o3 : AttemptOutcome) :
    1 ≤ (dispatch [o0, o1, o2, o3]).2.1 ∧
    (dispatch [o0, o1, o2, o3]).2.1 ≤ 4 ∧
    (dispatch [o0, o1, o2, o3]).2.2
      = (List.range ((dispatch [o0, o1, o2, o3]).2.1 - 1)).map (fun k => 2 ^ k) ∧
    ([o0, o1, o2, o3].take ((dispatch [o0, o1, o2, o3]).2.1 - 1)).all
      retryOutcome = true ∧
    ((dispatch [o0, o1, o2, o3]).2.1 < 4 →
      retryOutcome ([o0, o1, o2, o3].getD ((dispatch [o0, o1, o2, o3]).2.1 - 1)
        .transportError) = false) ∧
    (dispatch [o0, o1, o2, o3]).1
      = resultFor ([o0, o1, o2, o3].getD ((dispatch [o0, o1, o2, o3]).2.1 - 1)
        .transportError) := by
  have h := retryLoop_spec [o0, o1, o2, o3] 0 (by simp [maxRetries])
    (by simp [maxRetries])
  obtain ⟨h1, h2, h3, h4, h5, h6⟩ := h
  simp only [maxRetries, Nat.zero_add] at h2 h5
  simp only [dispatch]
  refine ⟨h1, by omega, ?_, h4, fun hlt => h5 (by omega), h6⟩
  rw [h3, ← List.range_eq_range']

/-- Witness for `dispatch_retry_policy` at a concrete input: a single
successful attempt. -/
theorem dispatch_retry_policy_witness :
    1 ≤ (dispatch [.response 200, .response 200, .response 200,
        .response 200]).2.1 ∧
    (dispatch [.response 200, .response 200, .response 200,
        .response 200]).2.1 ≤ 4 ∧
    (dispatch [.response 200, .response 200, .response 200,
        .response 200]).2.2
      = (List.range ((dispatch [.response 200, .response 200, .response 200,
          .response 200]).2.1 - 1)).map (fun k => 2 ^ k) ∧
    ([AttemptOutcome.response 200, .response 200, .response 200,
        .response 200].take ((dispatch [.response 200, .response 200,
          .response 200, .response 200]).2.1 - 1)).all retryOutcome = true ∧
    ((dispatch [.response 200, .response 200, .response 200,
        .response 200]).2.1 < 4 →
      retryOutcome ([AttemptOutcome.response 200, .response 200, .response 200,
        .response 200].getD ((dispatch [.response 200, .response 200,
          .response 200, .response 200]).2.1 - 1) .transportError) = false) ∧
    (dispatch [.response 200, .response 200, .response 200,
        .response 200]).1
      = resultFor ([AttemptOutcome.response 200, .response 200, .response 200,
        .response 200].getD ((dispatch [.response 200, .response 200,
          .response 200, .response 200]).2.1 - 1) .transportError) :=
  dispatch_retry_policy (.response 200) (.response 200) (.response 200)
    (.response 200)

/-! ## JSON values

Decoded `any` values from `github.com/goccy/go-json`, as used by the
tool-choice normalizer (`normalizeToolChoice`) and the request translator. -/

inductive JValue where
  | jnull
  | jbool (b : Bool)
  | jnum (n : Int)
  | jstr (s : String)
  | jarr (elems : List JValue)
  | jobj (fields : List (String × JValue))
deriving Repr

/-- Go map indexing `v[k]` on a decoded JSON object. -/
def jlookup (fields : List (String × JValue)) (k : String) : Option JValue :=
  match fields with
  | [] => none
  | (k', v) :: rest => if k' = k then some v else jlookup rest k

/-- Go `v[k].(string)` with the `ok` flag ignored: the zero value `""`
when the key is absent or the value is not a string. -/
def jlookupStr (fields : List (String × JValue)) (k : String) : String :=
  match jlookup fields k with
  | some (.jstr s) => s
  | _ => ""

/-- Go `v[k].(map[string]any)`. -/
def jlookupObj (fields : List (String × JValue)) (k : String) :
    Option (List (String × JValue)) :=
  match jlookup fields k with
  | some (.jobj f) => some f
  | _ => none

/-! ## Tool-choice normalizer (`normalizeToolChoice`) and what the
`/v1/messages` handler actually sends upstream (`src/api.go`). -/

/-- The normalized object form `[:]type "function", function: [:]name: n`. -/
def functionChoice (name : String) : JValue :=
  .jobj [("type", .jstr "function"), ("function", .jobj [("name", .jstr name)])]

/-- The helper `normalizeToolChoice`, translated case by case.
`none` models the Go `nil` interface value. -/
def normalizeToolChoice : Option JValue → Option JValue
  | none => none
  | some (.jstr v) =>
    match v with
    | "auto" => some (.jstr v)
    | "none" => some (.jstr v)
    | "required" => some (.jstr v)
    | "any" => some (.jstr "required")
    | _ => some (.jstr v)
  | some (.jobj fields) =>
    match jlookupStr fields "type" with
    | "auto" => some (.jstr "auto")
    | "any" => some (.jstr "required")
    | "none" => some (.jstr "none")
    | "tool" =>
      let name := jlookupStr fields "name"
      if name ≠ "" then some (functionChoice name) else some (.jobj fields)
    | "function" =>
      match jlookupObj fields "function" with
      | some fn =>
        let name := jlookupStr fn "name"
        if name ≠ "" then some (functionChoice name) else some (.jobj fields)
      | none => some (.jobj fields)
    | _ => some (.jobj fields)
  | some v => some v

/-- The `tool_choice` value `messagesHandler` places into the upstream
request body: `toolChoice := req.ToolChoice` followed by
`if toolChoice != nil { oaReqMap["tool_choice"] = toolChoice }` — the
request's value verbatim; `normalizeToolChoice` is never invoked. -/
def messagesHandlerToolChoice (reqToolChoice : Option JValue) : Option JValue :=
  reqToolChoice

/-- C5: the handler forwards `tool_choice` verbatim, so the upstream body
does NOT contain the normalized value: `[:]type: "any"` stays an object
instead of becoming the string `"required"`, and `[:]type: "tool",
name: "f"` is not rewritten to the `function` form — even though the
(uncalled) `normalizeToolChoice` helper implements exactly the claimed
mapping. -/
theorem tool_choice_not_normalized :
    messagesHandlerToolChoice (some (.jobj [("type", .jstr "any")]))
      = some (.jobj [("type", .jstr "any")]) ∧
    normalizeToolChoice (some (.jobj [("type", .jstr "any")]))
      = some (.jstr "required") ∧
    messagesHandlerToolChoice (some (.jobj [("type", .jstr "any")]))
      ≠ normalizeToolChoice (some (.jobj [("type", .jstr "any")])) ∧
    normalizeToolChoice (some (.jobj [("type", .jstr "tool"), ("name", .jstr "f")]))
      = some (functionChoice "f") ∧
    messagesHandlerToolChoice
        (some (.jobj [("type", .jstr "tool"), ("name", .jstr "f")]))
      ≠ normalizeToolChoice
        (some (.jobj [("type", .jstr "tool"), ("name", .jstr "f")])) ∧
    normalizeToolChoice (some (.jstr "any")) = some (.jstr "required") ∧
    normalizeToolChoice (some (.jstr "auto")) = some (.jstr "auto") ∧
    normalizeToolChoice (some (.jstr "none")) = some (.jstr "none") ∧
    normalizeToolChoice (some (.jstr "required")) = some (.jstr "required") ∧
    normalizeToolChoice
        (some (.jobj [("type", .jstr "function"),
          ("function", .jobj [("name", .jstr "f")])]))
      = some (functionChoice "f") := by
  refine ⟨rfl, rfl, ?_, rfl, ?_, rfl, rfl, rfl, rfl, rfl⟩
  · intro h
    simp only [messagesHandlerToolChoice] at h
    have h2 : normalizeToolChoice (some (.jobj [("type", .jstr "any")]))
        = some (.jstr "required") := rfl
    rw [h2] at h
    exact absurd (Option.some.inj h) (by intro hh; cases hh)
  · intro h
    simp only [messagesHandlerToolChoice] at h
    have h2 : normalizeToolChoice
        (some (.jobj [("type", .jstr "tool"), ("name", .jstr "f")]))
        = some (functionChoice "f") := rfl
    rw [h2] at h
    have h3 := Option.some.inj h
    injection h3 with h4
    injection h4 with h5 h6
    injection h5 with h7 h8
    injection h8 with h9
    exact absurd h9 (by decide)

/-! ## Per-credential validation (`src/auth.go`) and the status the
`/v1/messages` handler returns on rejection (`src/api.go`).

Header strings and credential keys are `List Char`; wall-clock instants
and durations are nanosecond counts (`Nat`), with `time.Now()` passed in
explicitly. -/

structure APIKeyConfig where
  rateLimit : Int
  role : String
  active : Bool
deriving Repr

/-- The `RateLimiter` of auth.go: a per-key token bucket. -/
structure RateLimiter where
  tokens : Int
  max : Int
  lastRef : Nat
  rate : Nat
deriving Repr

def minuteNs : Nat := 60000000000

/-- Constructor `newRateLimiter`: `nil` for a non-positive rpm. -/
def newRateLimiter (rpm : Int) (now : Nat) : Option RateLimiter :=
  if rpm ≤ 0 then none
  else some { tokens := rpm, max := rpm, lastRef := now,
              rate := minuteNs / rpm.toNat }

/-- Method `RateLimiter.Allow`: refill `⌊elapsed / rate⌋` tokens capped at `max`,
then consume one if available. -/
def RateLimiter.allow (rl : RateLimiter) (now : Nat) : Bool × RateLimiter :=
  let elapsed := now - rl.lastRef
  let tokensToAdd : Int := Int.ofNat (elapsed / rl.rate)
  let rl :=
    if 0 < tokensToAdd then
      let t := rl.tokens + tokensToAdd
      { rl with tokens := if rl.max < t then rl.max else t, lastRef := now }
    else rl
  if 0 < rl.tokens then (true, { rl with tokens := rl.tokens - 1 })
  else (false, rl)

/-- Association-list lookup (a Go map read). -/
def assocLookup {α : Type} (m : List (List Char × α)) (k : List Char) :
    Option α :=
  match m with
  | [] => none
  | (k', v) :: rest => if k' = k then some v else assocLookup rest k

/-- Association-list update (a Go map write). -/
def assocSet {α : Type} (m : List (List Char × α)) (k : List Char) (v : α) :
    List (List Char × α) :=
  match m with
  | [] => [(k, v)]
  | (k', v') :: rest =>
    if k' = k then (k', v) :: rest else (k', v') :: assocSet rest k v

/-- The `keyLimiters` map; Go stores `*RateLimiter`, which may be `nil`. -/
abbrev LimiterMap := List (List Char × Option RateLimiter)

/-- The `validateAPIKey` check of auth.go.  Returns the allowed flag, the config
(as Go does), and the updated limiter map. -/
def validateAPIKey (apiKeys : List (List Char × APIKeyConfig))
    (keyLimiters : LimiterMap) (key : List Char) (now : Nat) :
    Bool × Option APIKeyConfig × LimiterMap :=
  let hasKeys := 0 < apiKeys.length
  let cfg := assocLookup apiKeys key
  if ¬hasKeys then (true, none, keyLimiters)
  else
    match cfg with
    | none => (false, none, keyLimiters)
    | some config =>
      if ¬config.active then (false, some config, keyLimiters)
      else if 0 < config.rateLimit then
        let (limiter, limiters) :=
          match assocLookup keyLimiters key with
          | some l => (l, keyLimiters)
          | none =>
            let l := newRateLimiter config.rateLimit now
            (l, assocSet keyLimiters key l)
        match limiter with
        | some rl =>
          let (ok, rl') := rl.allow now
          if ¬ok then (false, some config, assocSet limiters key (some rl'))
          else (true, some config, assocSet limiters key (some rl'))
        | none => (true, some config, limiters)
      else (true, some config, keyLimiters)

/-- The literal `"Bearer "` marker the handler works with. -/
def bearerMark : List Char := "Bearer ".data

/-- Model of `strings.TrimPrefix`. -/
def trimPrefixList (p s : List Char) : List Char :=
  if isPrefixList p s then s.drop p.length else s

/-- The credential-checking head of `messagesHandler` (api.go): returns
`some status` when the request is rejected before translation, `none` when
it proceeds.  Every `validateAPIKey` rejection is surfaced as 401
("unauthorized: invalid key or rate limit exceeded"). -/
def messagesHandlerAuth (apiKeys : List (List Char × APIKeyConfig))
    (keyLimiters : LimiterMap) (authorizationHeader xApiKeyHeader : List Char)
    (now : Nat) : Option Nat :=
  let auth := if authorizationHeader ≠ [] then authorizationHeader
              else xApiKeyHeader
  if auth = [] then some 401
  else
    let auth := if ¬isPrefixList bearerMark auth then bearerMark ++ auth
                else auth
    let bearerToken := trimPrefixList bearerMark auth
    let r := validateAPIKey apiKeys keyLimiters bearerToken now
    if ¬r.1 then some 401 else none

/-- C6 counterexample: a known, active credential whose token bucket is
empty is rejected with status 401, not 429 as claimed. -/
theorem rate_limited_key_gets_401 :
    messagesHandlerAuth
        [("k".data, { rateLimit := 1, role := "user", active := true })]
        [("k".data,
          some { tokens := 0, max := 1, lastRef := 0, rate := minuteNs })]
        "k".data [] 0
      = some 401 ∧ (401 : Nat) ≠ 429 := by
  exact ⟨rfl, by decide⟩

/-- A successful lookup implies the table is non-empty. -/
theorem assocLookup_some_nonempty {α : Type} (m : List (List Char × α))
    (k : List Char) (v : α) (h : assocLookup m k = some v) : 0 < m.length := by
  cases m with
  | nil => simp [assocLookup] at h
  | cons p rest => simp

/-- C6 (amended): with a non-empty credentials table, an unknown token is
rejected 401; a known but inactive credential is rejected 401; and a
known, active credential whose per-key bucket declines is rejected 401 as
well (the handler maps every `validateAPIKey` rejection — including rate
limiting — to status 401, not 429). -/
theorem key_validation_statuses :
    (∀ (ks : List (List Char × APIKeyConfig)) (lm : LimiterMap)
        (key : List Char) (now : Nat), ks ≠ [] →
      assocLookup ks key = none →
      messagesHandlerAuth ks lm (bearerMark ++ key) [] now = some 401) ∧
    (∀ (ks : List (List Char × APIKeyConfig)) (lm : LimiterMap)
        (key : List Char) (now : Nat) (cfg : APIKeyConfig),
      assocLookup ks key = some cfg → cfg.active = false →
      messagesHandlerAuth ks lm (bearerMark ++ key) [] now = some 401) ∧
    (∀ (ks : List (List Char × APIKeyConfig)) (lm : LimiterMap)
        (key : List Char) (now : Nat) (cfg : APIKeyConfig) (rl : RateLimiter),
      assocLookup ks key = some cfg → cfg.active = true →
      0 < cfg.rateLimit → assocLookup lm key = some (some rl) →
      (rl.allow now).1 = false →
      messagesHandlerAuth ks lm (bearerMark ++ key) [] now = some 401) := by
  have hmark : bearerMark ≠ [] := by decide
  have hauth : ∀ key : List Char, bearerMark ++ key ≠ [] := by
    intro key h
    exact hmark (List.append_eq_nil.1 h).1
  have hbearer : ∀ key : List Char,
      trimPrefixList bearerMark (bearerMark ++ key) = key := by
    intro key
    simp [trimPrefixList, isPrefixList_append, List.drop_left]
  refine ⟨?_, ?_, ?_⟩
  · intro ks lm key now hne hlk
    have hlen : 0 < ks.length := by
      cases ks with
      | nil => exact absurd rfl hne
      | cons a b => simp
    simp [messagesHandlerAuth, hauth key, isPrefixList_append, hbearer key,
      validateAPIKey, hlen, hlk]
  · intro ks lm key now cfg hlk hact
    have hlen := assocLookup_some_nonempty ks key cfg hlk
    simp [messagesHandlerAuth, hauth key, isPrefixList_append, hbearer key,
      validateAPIKey, hlen, hlk, hact]
  · intro ks lm key now cfg rl hlk hact hrate hlim hallow
    have hlen := assocLookup_some_nonempty ks key cfg hlk
    rcases hal : rl.allow now with ⟨ok, rl'⟩
    have hok : ok = false := by rw [hal] at hallow; exact hallow
    subst hok
    simp [messagesHandlerAuth, hauth key, isPrefixList_append, hbearer key,
      validateAPIKey, hlen, hlk, hact, hrate, hlim, hal]

/-- Witness for `key_validation_statuses` at concrete inputs. -/
theorem key_validation_statuses_witness :
    messagesHandlerAuth
        [("a".data, { rateLimit := 0, role := "user", active := true })]
        [] (bearerMark ++ "b".data) [] 5 = some 401 ∧
    messagesHandlerAuth
        [("a".data, { rateLimit := 0, role := "user", active := false })]
        [] (bearerMark ++ "a".data) [] 5 = some 401 ∧
    messagesHandlerAuth
        [("a".data, { rateLimit := 2, role := "user", active := true })]
        [("a".data,
          some { tokens := 0, max := 2, lastRef := 5, rate := minuteNs / 2 })]
        (bearerMark ++ "a".data) [] 5 = some 401 := by
  refine ⟨?_, ?_, ?_⟩
  · exact key_validation_statuses.1
      [("a".data, { rateLimit := 0, role := "user", active := true })] []
      "b".data 5 (by simp) rfl
  · exact key_validation_statuses.2.1
      [("a".data, { rateLimit := 0, role := "user", active := false })] []
      "a".data 5 { rateLimit := 0, role := "user", active := false }
      rfl rfl
  · exact key_validation_statuses.2.2
      [("a".data, { rateLimit := 2, role := "user", active := true })]
      [("a".data,
        some { tokens := 0, max := 2, lastRef := 5, rate := minuteNs / 2 })]
      "a".data 5 { rateLimit := 2, role := "user", active := true }
      { tokens := 0, max := 2, lastRef := 5, rate := minuteNs / 2 }
      rfl rfl (by decide) rfl rfl

/-! ## Route resolver (`src/install.go`, `getUpstreamForModel`)

`regexp.MatchString` is external; it is passed in as an oracle returning
`Except`, where `.error` models an invalid pattern (Go then yields
`matched = false` alongside the ignored error). -/

structure RouteConfig where
  pattern : String
  upstream : String
  authKey : String
deriving Repr

/-- Evaluation of `matched, _ := regexp.MatchString(route.Pattern, model)`: the error is
discarded and an invalid pattern yields `false`. -/
def matchedString (ms : String → String → Except String Bool)
    (pattern model : String) : Bool :=
  match ms pattern model with
  | .ok b => b
  | .error _ => false

/-- Resolver `getUpstreamForModel`: first route whose pattern matches wins;
otherwise the default base with no credential override. -/
def getUpstreamForModel (ms : String → String → Except String Bool)
    (modelRoutes : List RouteConfig) (model defaultBase : String) :
    String × String :=
  match modelRoutes with
  | [] => (defaultBase, "")
  | route :: rest =>
    if matchedString ms route.pattern model then (route.upstream, route.authKey)
    else getUpstreamForModel ms rest model defaultBase

/-- C9: the resolver returns the `(upstream, auth_key)` of the first entry
whose pattern matches the model name, the default base and an empty
override when the table is empty or nothing matches, and an entry whose
pattern fails to compile is treated as non-matching rather than failing. -/
theorem route_resolver_first_match :
    (∀ (ms : String → String → Except String Bool)
        (routes : List RouteConfig) (model base : String),
      getUpstreamForModel ms routes model base
        = match routes.find? (fun r => matchedString ms r.pattern model) with
          | some r => (r.upstream, r.authKey)
          | none => (base, "")) ∧
    (∀ (ms : String → String → Except String Bool) (p u k : String)
        (rest : List RouteConfig) (model base : String) (e : String),
      ms p model = Except.error e →
      getUpstreamForModel ms (⟨p, u, k⟩ :: rest) model base
        = getUpstreamForModel ms rest model base) := by
  constructor
  · intro ms routes model base
    induction routes with
    | nil => simp [getUpstreamForModel]
    | cons route rest ih =>
      by_cases hm : matchedString ms route.pattern model
      · simp [getUpstreamForModel, hm, List.find?]
      · simp only [getUpstreamForModel, if_neg hm, ih, List.find?]
        rw [Bool.not_eq_true] at hm
        rw [hm]
  · intro ms p u k rest model base e herr
    simp [getUpstreamForModel, matchedString, herr]

/-- Witness for `route_resolver_first_match`: an invalid-pattern entry is
skipped and resolution falls through to the default. -/
theorem route_resolver_first_match_witness :
    getUpstreamForModel (fun _ _ => Except.error "invalid regex")
        [⟨"(", "https://u", "key1"⟩] "gpt-4o" "https://default"
      = ("https://default", "") := by
  rw [route_resolver_first_match.2 (fun _ _ => Except.error "invalid regex")
    "(" "https://u" "key1" [] "gpt-4o" "https://default" "invalid regex" rfl]
  rfl

/-! ## Think-tag parser and non-streaming assembler
(`src/utils.go` `parseContentWithThinkTags`, `src/proxy.go` non-streaming
branch of `forwardOAMap`). -/

/-- An Anthropic content block as assembled for the non-streaming
response. -/
inductive ABlock where
  | text (t : List Char)
  | thinking (t : List Char)
  | toolUse (id name : String) (input : String)
deriving Repr

def thinkOpen : List Char := "<think>".data

def thinkClose : List Char := "</think>".data

/-- The parser `parseContentWithThinkTags` (utils.go): split on `<think>`; the piece
before the first tag becomes a `text` block when non-empty; each later
piece is split on `</think>` — exactly two sub-pieces yield a `thinking`
block plus an optional trailing `text` block, anything else becomes a
single `thinking` block (unclosed-tag fallback). -/
def parseContentWithThinkTags (raw : List Char) : List ABlock :=
  match splitOnTag thinkOpen raw with
  | [] => []
  | p0 :: rest =>
    (if p0 ≠ [] then [ABlock.text p0] else [])
      ++ rest.flatMap (fun part =>
        match splitOnTag thinkClose part with
        | [a, b] =>
          [ABlock.thinking a] ++ (if b ≠ [] then [ABlock.text b] else [])
        | _ => [ABlock.thinking part])

structure OAFunctionPayload where
  name : String := ""
  arguments : String := ""
deriving Repr

structure OARespToolCall where
  id : String := ""
  function : OAFunctionPayload := {}
deriving Repr

structure OARespMessage where
  content : List Char := []
  reasoningContent : List Char := []
  toolCalls : List OARespToolCall := []
deriving Repr

structure OARespChoice where
  message : OARespMessage := {}
  finishReason : String := ""
deriving Repr

structure OARespUsage where
  promptTokens : Int := 0
  completionTokens : Int := 0
deriving Repr

structure OAChatResp where
  id : String := ""
  model : String := ""
  choices : List OARespChoice := []
  usage : OARespUsage := {}
deriving Repr

/-- The Anthropic-shaped message the assembler responds with. -/
structure AnthMessage where
  id : String
  model : String
  content : List ABlock
  stopReason : String
  inputTokens : Int
  outputTokens : Int
deriving Repr

/-- The non-streaming branch of `forwardOAMap` (proxy.go): `none` models
the `"empty choices"` 502 error path. -/
def assembleNonStreaming (resp : OAChatResp) : Option AnthMessage :=
  match resp.choices with
  | [] => none
  | choice :: _ =>
    let blocks :=
      (if choice.message.reasoningContent ≠ [] then
        [ABlock.thinking choice.message.reasoningContent] else [])
      ++ parseContentWithThinkTags choice.message.content
      ++ choice.message.toolCalls.map (fun tc =>
          ABlock.toolUse tc.id tc.function.name
            (if tc.function.arguments = "" then "\x7b\x7d"
             else tc.function.arguments))
    let blocks := if blocks.isEmpty then [ABlock.text []] else blocks
    some { id := "msg_" ++ resp.id
           model := resp.model
           content := blocks
           stopReason := if choice.finishReason = "tool_calls" then "tool_use"
                         else "end_turn"
           inputTokens := resp.usage.promptTokens
           outputTokens := resp.usage.completionTokens }

/-- Splitting on a tag that does not occur returns the whole input. -/
theorem splitOnTag_of_not_contains (needle hay : List Char)
    (h : findSub needle hay = none) : splitOnTag needle hay = [hay] := by
  rw [splitOnTag]
  split
  · rfl
  · split
    · rfl
    · rename_i i heq
      rw [h] at heq
      cases heq

/-- Tag-free non-empty content parses to a single text block. -/
theorem parseContentWithThinkTags_no_tags (raw : List Char)
    (hne : raw ≠ []) (h : findSub thinkOpen raw = none) :
    parseContentWithThinkTags raw = [ABlock.text raw] := by
  rw [parseContentWithThinkTags, splitOnTag_of_not_contains thinkOpen raw h]
  simp [hne]

/-- C8: with a non-empty `reasoning_content` R and tag-free non-empty
content T and no tool calls, the assembled blocks are exactly
`[thinking R, text T]`; and in general the assembled message prepends
`"msg_"` to the upstream id, sets `stop_reason` to `tool_use` exactly when
`finish_reason` is `"tool_calls"`, maps `prompt_tokens`/`completion_tokens`
to `input_tokens`/`output_tokens`, orders blocks as reasoning first, then
the think-tag-parsed content blocks, then one `tool_use` block per tool
call, and inserts a single empty text block exactly when that sequence is
empty. -/
theorem assembler_reasoning_then_text :
    (∀ (resp : OAChatResp) (choice : OARespChoice) (t : List OARespChoice),
      resp.choices = choice :: t →
      choice.message.reasoningContent ≠ [] →
      choice.message.content ≠ [] →
      findSub thinkOpen choice.message.content = none →
      choice.message.toolCalls = [] →
      (assembleNonStreaming resp).map AnthMessage.content
        = some [ABlock.thinking choice.message.reasoningContent,
                ABlock.text choice.message.content]) ∧
    (∀ (resp : OAChatResp) (choice : OARespChoice) (t : List OARespChoice),
      resp.choices = choice :: t →
      ∃ msg, assembleNonStreaming resp = some msg ∧
        msg.id = "msg_" ++ resp.id ∧
        msg.model = resp.model ∧
        (msg.stopReason = "tool_use" ↔ choice.finishReason = "tool_calls") ∧
        (msg.stopReason = "tool_use" ∨ msg.stopReason = "end_turn") ∧
        msg.inputTokens = resp.usage.promptTokens ∧
        msg.outputTokens = resp.usage.completionTokens ∧
        msg.content =
          (let core :=
            (if choice.message.reasoningContent ≠ [] then
              [ABlock.thinking choice.message.reasoningContent] else [])
            ++ parseContentWithThinkTags choice.message.content
            ++ choice.message.toolCalls.map (fun tc =>
                ABlock.toolUse tc.id tc.function.name
                  (if tc.function.arguments = "" then "\x7b\x7d"
                   else tc.function.arguments))
           if core.isEmpty then [ABlock.text []] else core)) := by
  constructor
  · intro resp choice t hch hr hc htag htc
    rw [show assembleNonStreaming resp
        = (match resp.choices with
           | [] => none
           | choice :: _ =>
             let blocks :=
               (if choice.message.reasoningContent ≠ [] then
                 [ABlock.thinking choice.message.reasoningContent] else [])
               ++ parseContentWithThinkTags choice.message.content
               ++ choice.message.toolCalls.map (fun tc =>
                   ABlock.toolUse tc.id tc.function.name
                     (if tc.function.arguments = "" then "\x7b\x7d"
                      else tc.function.arguments))
             let blocks := if blocks.isEmpty then [ABlock.text []] else blocks
             some { id := "msg_" ++ resp.id
                    model := resp.model
                    content := blocks
                    stopReason := if choice.finishReason = "tool_calls"
                                  then "tool_use" else "end_turn"
                    inputTokens := resp.usage.promptTokens
                    outputTokens := resp.usage.completionTokens })
        from rfl]
    rw [hch]
    simp only [htc, parseContentWithThinkTags_no_tags _ hc htag, hr,
      ne_eq, not_false_iff, if_true, List.map_nil, List.append_nil]
    simp
  · intro resp choice t hch
    unfold assembleNonStreaming
    rw [hch]
    refine ⟨_, rfl, rfl, rfl, ?_, ?_, rfl, rfl, rfl⟩
    · by_cases hf : choice.finishReason = "tool_calls" <;> simp [hf]
    · by_cases hf : choice.finishReason = "tool_calls" <;> simp [hf]

/-- Witness for `assembler_reasoning_then_text` at a concrete upstream
response. -/
theorem assembler_reasoning_then_text_witness :
    (assembleNonStreaming
      { id := "u1", model := "m",
        choices := [{ message := { content := "hello".data,
                                   reasoningContent := "R".data,
                                   toolCalls := [] },
                      finishReason := "stop" }],
        usage := { promptTokens := 1, completionTokens := 1 } }).map
      AnthMessage.content
      = some [ABlock.thinking "R".data, ABlock.text "hello".data] := by
  exact assembler_reasoning_then_text.1
    { id := "u1", model := "m",
      choices := [{ message := { content := "hello".data,
                                 reasoningContent := "R".data,
                                 toolCalls := [] },
                    finishReason := "stop" }],
      usage := { promptTokens := 1, completionTokens := 1 } }
    { message := { content := "hello".data,
                   reasoningContent := "R".data, toolCalls := [] },
      finishReason := "stop" }
    [] rfl (by decide) (by decide) (by decide) rfl

/-! ## Request translator, user-message case
(`src/api.go`, `buildOpenAIMessages`, `case "user"`). -/

mutual

/-- JSON serialization used when a `tool_result` content is not a JSON
string (Go's `string(p.Content)`, the raw bytes). -/
def serializeJ : JValue → String
  | .jnull => "null"
  | .jbool true => "true"
  | .jbool false => "false"
  | .jnum n => toString n
  | .jstr s => "\"" ++ s ++ "\""
  | .jarr xs => "[" ++ serializeArr xs ++ "]"
  | .jobj fs => "\x7b" ++ serializeFields fs ++ "\x7d"

def serializeArr : List JValue → String
  | [] => ""
  | [x] => serializeJ x
  | x :: rest => serializeJ x ++ "," ++ serializeArr rest

def serializeFields : List (String × JValue) → String
  | [] => ""
  | [(k, v)] => "\"" ++ k ++ "\":" ++ serializeJ v
  | (k, v) :: rest => "\"" ++ k ++ "\":" ++ serializeJ v ++ "," ++
      serializeFields rest

end

/-- The `image.source` of an Anthropic content part. -/
structure ImageSource where
  type : String := ""
  mediaType : String := ""
  data : String := ""
deriving Repr

/-- Struct `AnthropicContent` (types.go): one normalized content part.  The
`content` of a `tool_result` is raw JSON, modelled decoded (`none` for an
absent/empty raw message). -/
structure AnthropicContent where
  type : String := ""
  text : String := ""
  id : String := ""
  name : String := ""
  input : String := ""
  toolUseID : String := ""
  content : Option JValue := none
  source : Option ImageSource := none
deriving Repr

/-- The `contentStr` computation of the `tool_result` case: empty raw
content gives `""`; a JSON string unmarshals to itself; any other JSON
value is passed through as its serialized text. -/
def toolResultContentStr (c : Option JValue) : String :=
  match c with
  | none => ""
  | some (.jstr s) => s
  | some v => serializeJ v

structure OAImageURL where
  url : String
deriving Repr

/-- Struct `OAContentPart` (types.go). -/
structure OAContentPart where
  type : String
  text : String := ""
  imageURL : Option OAImageURL := none
deriving Repr

/-- The `image_url` part built from a base64 image source. -/
def imageURLPart (src : ImageSource) : OAContentPart :=
  { type := "image_url",
    imageURL := some { url := "data:" ++ src.mediaType ++ ";base64," ++ src.data } }

/-- A message appended to the outgoing OpenAI `messages` array by the
user case: either a `role:"tool"` message or a `role:"user"` message
(string-content or parts-array form). -/
inductive OAMsg where
  | tool (toolCallId : String) (content : String)
  | userStr (content : String)
  | userParts (parts : List OAContentPart)
deriving Repr

def OAMsg.isToolMsg : OAMsg → Bool
  | .tool _ _ => true
  | _ => false

def OAMsg.isUserMsg : OAMsg → Bool
  | .userStr _ => true
  | .userParts _ => true
  | .tool _ _ => false

/-- The per-part loop of the `case "user"` branch: text parts with
non-empty text and base64 images accumulate into `oaParts`; every
`tool_result` part appends a separate `role:"tool"` message immediately;
all other part types are ignored.  (Go's `switch p.Type` is a chain of
string comparisons.) -/
def userCaseLoop (oaParts : List OAContentPart) (msgs : List OAMsg) :
    List AnthropicContent → List OAContentPart × List OAMsg
  | [] => (oaParts, msgs)
  | p :: rest =>
    if p.type = "text" then
      if p.text ≠ "" then
        userCaseLoop (oaParts ++ [{ type := "text", text := p.text }]) msgs rest
      else userCaseLoop oaParts msgs rest
    else if p.type = "image" then
      match p.source with
      | some src =>
        if src.type = "base64" then
          userCaseLoop (oaParts ++ [imageURLPart src]) msgs rest
        else userCaseLoop oaParts msgs rest
      | none => userCaseLoop oaParts msgs rest
    else if p.type = "tool_result" then
      userCaseLoop oaParts
        (msgs ++ [.tool p.toolUseID (toolResultContentStr p.content)]) rest
    else userCaseLoop oaParts msgs rest

/-- The full `case "user"` branch: run the loop, then append the
aggregated user message — a plain string when the collected parts are a
single text part, a parts array otherwise; when nothing was collected, an
empty user message only if the part list itself was empty. -/
def buildUserMessages (parts : List AnthropicContent) : List OAMsg :=
  let r := userCaseLoop [] [] parts
  let oaParts := r.1
  let msgs := r.2
  if 0 < oaParts.length then
    if oaParts.length = 1 ∧ (oaParts.headD { type := "" }).type = "text" then
      msgs ++ [.userStr (oaParts.headD { type := "" }).text]
    else msgs ++ [.userParts oaParts]
  else if parts.length = 0 then msgs ++ [.userStr ""]
  else msgs

/-- The tool messages the user case emits, in part order. -/
def toolMsgsOf (parts : List AnthropicContent) : List OAMsg :=
  parts.filterMap (fun p =>
    if p.type = "tool_result" then
      some (.tool p.toolUseID (toolResultContentStr p.content))
    else none)

/-- The OpenAI content parts the user case collects, in part order. -/
def collectOAParts (parts : List AnthropicContent) : List OAContentPart :=
  parts.filterMap (fun p =>
    if p.type = "text" then
      if p.text ≠ "" then some { type := "text", text := p.text } else none
    else if p.type = "image" then
      match p.source with
      | some src =>
        if src.type = "base64" then some (imageURLPart src) else none
      | none => none
    else none)

/-- The trailing user message (at most one) the user case appends. -/
def userTailOf (parts : List AnthropicContent) : List OAMsg :=
  let oa := collectOAParts parts
  if 0 < oa.length then
    if oa.length = 1 ∧ (oa.headD { type := "" }).type = "text" then
      [.userStr (oa.headD { type := "" }).text]
    else [.userParts oa]
  else if parts.length = 0 then [.userStr ""]
  else []

/-- A part that contributes nothing to `oaParts`: a `tool_result`, a text
part with empty text, or an image part without a base64 source. -/
def vacuousUserPart (p : AnthropicContent) : Bool :=
  p.type = "tool_result"
  || (p.type = "text" && p.text = "")
  || (p.type = "image" &&
      match p.source with
      | none => true
      | some src => src.type ≠ "base64")

/-- The interleaved loop separates into collected parts and tool
messages. -/
theorem userCaseLoop_decompose (parts : List AnthropicContent) :
    ∀ oaParts msgs, userCaseLoop oaParts msgs parts
      = (oaParts ++ collectOAParts parts, msgs ++ toolMsgsOf parts) := by
  induction parts with
  | nil => intro oaParts msgs; simp [userCaseLoop, collectOAParts, toolMsgsOf]
  | cons p rest ih =>
    intro oaParts msgs
    simp only [userCaseLoop, collectOAParts, toolMsgsOf,
      List.filterMap_cons]
    by_cases ht : p.type = "text"
    · have hnt : ¬ p.type = "tool_result" := by rw [ht]; decide
      by_cases htx : p.text = ""
      · simp [ht, htx, ih, collectOAParts, toolMsgsOf]
      · simp [ht, htx, ih, collectOAParts, toolMsgsOf]
    · by_cases hi : p.type = "image"
      · have hit : ¬ p.type = "tool_result" := by rw [hi]; decide
        rcases hs : p.source with _ | src
        · simp [ht, hi, hit, hs, ih, collectOAParts, toolMsgsOf]
        · by_cases hb : src.type = "base64"
          · simp [ht, hi, hit, hs, hb, ih, collectOAParts, toolMsgsOf]
          · simp [ht, hi, hit, hs, hb, ih, collectOAParts, toolMsgsOf]
      · by_cases htr : p.type = "tool_result"
        · simp [ht, hi, htr, ih, collectOAParts, toolMsgsOf]
        · simp [ht, hi, htr, ih, collectOAParts, toolMsgsOf]

/-- All-vacuous parts collect nothing. -/
theorem collectOAParts_vacuous (parts : List AnthropicContent)
    (h : parts.all vacuousUserPart = true) : collectOAParts parts = [] := by
  induction parts with
  | nil => rfl
  | cons p rest ih =>
    simp only [List.all_cons, Bool.and_eq_true] at h
    obtain ⟨hp, hrest⟩ := h
    have htail : collectOAParts rest = [] := ih hrest
    simp only [collectOAParts, List.filterMap_cons]
    by_cases ht : p.type = "text"
    · have htx : p.text = "" := by
        simp [vacuousUserPart, ht] at hp
        exact hp
      rw [if_pos ht, if_neg (by simp [htx])]
      exact htail
    · by_cases hi : p.type = "image"
      · rw [if_neg ht, if_pos hi]
        rcases hsrc : p.source with _ | src
        · exact htail
        · have hb : ¬ src.type = "base64" := by
            simp [vacuousUserPart, hi, hsrc] at hp
            exact hp
          dsimp only
          rw [if_neg hb]
          exact htail
      · rw [if_neg ht, if_neg hi]
        exact htail

/-- C10: every `role:"tool"` message the user case emits precedes the
single aggregated `role:"user"` message (the loop only appends tool
messages; the user message, of which there is at most one, is appended
after the loop); and when every part is a `tool_result`, an empty text
part, or an image part without a base64 source, the output is exactly the
tool messages with no user message at all. -/
theorem user_case_tool_messages_first :
    (∀ parts, buildUserMessages parts = toolMsgsOf parts ++ userTailOf parts) ∧
    (∀ parts, (toolMsgsOf parts).all OAMsg.isToolMsg = true) ∧
    (∀ parts, (userTailOf parts).all OAMsg.isUserMsg = true ∧
      (userTailOf parts).length ≤ 1) ∧
    (∀ parts, parts ≠ [] → parts.all vacuousUserPart = true →
      buildUserMessages parts = toolMsgsOf parts) := by
  have hdecomp : ∀ parts, buildUserMessages parts
      = toolMsgsOf parts ++ userTailOf parts := by
    intro parts
    simp only [buildUserMessages, userCaseLoop_decompose parts [] [],
      List.nil_append, userTailOf]
    by_cases h1 : 0 < (collectOAParts parts).length
    · rw [if_pos h1, if_pos h1]
      by_cases h2 : (collectOAParts parts).length = 1 ∧
          ((collectOAParts parts).headD { type := "" }).type = "text"
      · rw [if_pos h2, if_pos h2]
      · rw [if_neg h2, if_neg h2]
    · rw [if_neg h1, if_neg h1]
      by_cases h3 : parts.length = 0
      · rw [if_pos h3, if_pos h3]
      · rw [if_neg h3, if_neg h3, List.append_nil]
  refine ⟨hdecomp, ?_, ?_, ?_⟩
  · intro parts
    induction parts with
    | nil => rfl
    | cons p rest ih =>
      simp only [toolMsgsOf, List.filterMap_cons] at ih ⊢
      by_cases htr : p.type = "tool_result"
      · simp [htr, OAMsg.isToolMsg, ih]
      · simp [htr, ih]
  · intro parts
    simp only [userTailOf]
    by_cases h1 : 0 < (collectOAParts parts).length
    · rw [if_pos h1]
      by_cases h2 : (collectOAParts parts).length = 1 ∧
          ((collectOAParts parts).headD { type := "" }).type = "text"
      · rw [if_pos h2]
        exact ⟨rfl, by simp⟩
      · rw [if_neg h2]
        exact ⟨rfl, by simp⟩
    · rw [if_neg h1]
      by_cases h3 : parts.length = 0
      · rw [if_pos h3]
        exact ⟨rfl, by simp⟩
      · rw [if_neg h3]
        exact ⟨rfl, by simp⟩
  · intro parts hne hvac
    rw [hdecomp parts]
    have hempty := collectOAParts_vacuous parts hvac
    have hlen : ¬ parts.length = 0 := by
      cases parts with
      | nil => exact absurd rfl hne
      | cons a b => simp
    have htail : userTailOf parts = [] := by
      simp only [userTailOf, hempty]
      rw [if_neg (by simp), if_neg hlen]
    rw [htail, List.append_nil]

/-- Witness for `user_case_tool_messages_first`: a user message holding
only a `tool_result` part and an empty text part yields exactly one tool
message and no user message. -/
theorem user_case_tool_messages_first_witness :
    buildUserMessages
        [{ type := "tool_result", toolUseID := "tu1",
           content := some (.jstr "ok") },
         { type := "text", text := "" }]
      = [OAMsg.tool "tu1" "ok"] := by
  have h := user_case_tool_messages_first.2.2.2
    [{ type := "tool_result", toolUseID := "tu1",
       content := some (.jstr "ok") },
     { type := "text", text := "" }]
    (by simp) (by decide)
  rw [h]
  rfl

/-! ## Streaming FSM (`src/proxy.go`, streaming branch of `forwardOAMap`)

The SSE byte stream and the JSON decoding of each `data:` line are
external, so the input is a list of already-classified items: a line that
is skipped (`other` — no `data: ` marker, or an unparseable chunk), the
`[DONE]` terminator, or a decoded chunk.  Payload fragments are
`List Char` (bytes). -/

/-- The `content_block_delta` payload variants. -/
inductive DeltaPayload where
  | thinkingDelta (s : List Char)
  | textDelta (s : List Char)
  | inputJsonDelta (s : String)
deriving Repr, DecidableEq

/-- The Anthropic streaming event alphabet as written to the client. -/
inductive Event where
  | messageStart (inTok outTok : Int)
  | blockStartText (idx : Int)
  | blockStartThinking (idx : Int)
  | blockStartTool (idx : Int) (id name : String)
  | blockDelta (idx : Int) (d : DeltaPayload)
  | blockStop (idx : Int)
  | messageDelta (stopReason : String) (outTok : Int)
  | messageStop
deriving Repr, DecidableEq

/-- The local state of the streaming loop in `forwardOAMap`. -/
structure FSMState where
  startedMessage : Bool
  lastUsageIn : Int
  lastUsageOut : Int
  currentBlockType : String
  currentBlockIdx : Int
  hasToolUse : Bool
  contentBuffer : List Char
  currentToolIndex : Int
deriving Repr, DecidableEq

/-- The state at the top of the streaming loop. -/
def initState : FSMState :=
  { startedMessage := false, lastUsageIn := 0, lastUsageOut := 0,
    currentBlockType := "", currentBlockIdx := -1, hasToolUse := false,
    contentBuffer := [], currentToolIndex := -1 }

/-- The `emitDelta` closure: opens a `text` block when none is open, then
emits the fragment as a `thinking_delta` or `text_delta` depending on the
open block's type (a `tool_use` block swallows the fragment — the Go
switch has no case for it); empty fragments emit nothing. -/
def emitDelta (st : FSMState) (text : List Char) : FSMState × List Event :=
  if text = [] then (st, [])
  else
    let p :=
      if st.currentBlockType = "" then
        ({ st with currentBlockIdx := st.currentBlockIdx + 1,
                   currentBlockType := "text" },
         [Event.blockStartText (st.currentBlockIdx + 1)])
      else (st, [])
    let st1 := p.1
    if st1.currentBlockType = "thinking" then
      (st1, p.2 ++ [Event.blockDelta st1.currentBlockIdx (.thinkingDelta text)])
    else if st1.currentBlockType = "text" then
      (st1, p.2 ++ [Event.blockDelta st1.currentBlockIdx (.textDelta text)])
    else (st1, p.2)

/-- The `closeBlock` closure: emits `content_block_stop` whenever
`currentBlockIdx >= 0` (NOT whenever a block is actually open) and clears
the open-block type. -/
def closeBlock (st : FSMState) : FSMState × List Event :=
  ({ st with currentBlockType := "" },
   if 0 ≤ st.currentBlockIdx then [Event.blockStop st.currentBlockIdx]
   else [])

/-- One entry of `delta.tool_calls`. -/
structure OAToolCallDelta where
  index : Int := 0
  id : String := ""
  name : String := ""
  arguments : String := ""
deriving Repr

/-- The `choices[0].delta` of a stream chunk. -/
structure OADelta where
  content : List Char := []
  reasoningContent : List Char := []
  reasoning : List Char := []
  toolCalls : List OAToolCallDelta := []
deriving Repr

structure OAStreamUsage where
  promptTokens : Int := 0
  completionTokens : Int := 0
deriving Repr

/-- A decoded `OAStreamChunk`. -/
structure OAStreamChunk where
  choices : List OADelta := []
  usage : Option OAStreamUsage := none
deriving Repr

/-- Pass 1: reasoning (`delta.reasoning_content` falling back to
`delta.reasoning`). -/
def reasoningPass (st : FSMState) (d : OADelta) : FSMState × List Event :=
  let r := if d.reasoningContent ≠ [] then d.reasoningContent
           else d.reasoning
  if r = [] then (st, [])
  else if st.currentBlockType ≠ "thinking" then
    let p1 := closeBlock st
    let idx := p1.1.currentBlockIdx + 1
    let st2 := { p1.1 with currentBlockIdx := idx,
                           currentBlockType := "thinking" }
    let p3 := emitDelta st2 r
    (p3.1, p1.2 ++ [Event.blockStartThinking idx] ++ p3.2)
  else
    let p3 := emitDelta st r
    (p3.1, p3.2)

/-- The buffer-scanning loop of pass 2, one structural call per Go loop
iteration.  `buf` is the working `contentBuffer`; the final state stores
the retained suffix back into `contentBuffer`.  The fuel argument only
bounds the recursion: every iteration that recurses removes a complete
tag (at least 7 bytes) from the buffer, so with the entry point's
`buf.length + 1` the zero-fuel case is never reached
(`contentLoopF_fuel_irrelevant` below). -/
def contentLoopF (st : FSMState) (buf : List Char) :
    Nat → FSMState × List Event
  | 0 => (st, [])
  | fuel + 1 =>
    match findSub thinkOpen buf, findSub thinkClose buf with
    | none, none =>
      let cutoff :=
        if 20 < buf.length then
          match lastIndexByte '<' (buf.drop (buf.length - 20)) with
          | some j => buf.length - 20 + j
          | none => buf.length
        else
          if containsSub ['<'] buf then
            (lastIndexByte '<' buf).getD buf.length
          else buf.length
      let safe := buf.take cutoff
      let rest := buf.drop cutoff
      let p1 := if safe ≠ [] then emitDelta st safe else (st, [])
      ({ p1.1 with contentBuffer := rest }, p1.2)
    | some s, none =>
      let pre := buf.take s
      let p1 := if pre ≠ [] then emitDelta st pre else (st, [])
      let p2 := if p1.1.currentBlockType = "text" then closeBlock p1.1
                else (p1.1, [])
      let p3 :=
        if p2.1.currentBlockType ≠ "thinking" then
          ({ p2.1 with currentBlockIdx := p2.1.currentBlockIdx + 1,
                       currentBlockType := "thinking" },
           [Event.blockStartThinking (p2.1.currentBlockIdx + 1)])
        else (p2.1, [])
      let p4 := contentLoopF p3.1 (buf.drop (s + 7)) fuel
      (p4.1, p1.2 ++ p2.2 ++ p3.2 ++ p4.2)
    | none, some e =>
      let pre := buf.take e
      let p1 := if pre ≠ [] then emitDelta st pre else (st, [])
      let p2 := if p1.1.currentBlockType = "thinking" then closeBlock p1.1
                else (p1.1, [])
      let p4 := contentLoopF p2.1 (buf.drop (e + 8)) fuel
      (p4.1, p1.2 ++ p2.2 ++ p4.2)
    | some s, some e =>
      if s < e then
        let pre := buf.take s
        let p1 := if pre ≠ [] then emitDelta st pre else (st, [])
        let p2 := if p1.1.currentBlockType = "text" then closeBlock p1.1
                  else (p1.1, [])
        let p3 :=
          if p2.1.currentBlockType ≠ "thinking" then
            ({ p2.1 with currentBlockIdx := p2.1.currentBlockIdx + 1,
                         currentBlockType := "thinking" },
             [Event.blockStartThinking (p2.1.currentBlockIdx + 1)])
          else (p2.1, [])
        let p4 := contentLoopF p3.1 (buf.drop (s + 7)) fuel
        (p4.1, p1.2 ++ p2.2 ++ p3.2 ++ p4.2)
      else
        let pre := buf.take e
        let p1 := if pre ≠ [] then emitDelta st pre else (st, [])
        let p2 := if p1.1.currentBlockType = "thinking" then closeBlock p1.1
                  else (p1.1, [])
        let p4 := contentLoopF p2.1 (buf.drop (e + 8)) fuel
        (p4.1, p1.2 ++ p2.2 ++ p4.2)

/-- The loop with always-sufficient fuel. -/
def contentLoop (st : FSMState) (buf : List Char) : FSMState × List Event :=
  contentLoopF st buf (buf.length + 1)

/-- Any fuel above the buffer length gives the same result as the entry
point's `buf.length + 1`: each recursive call removes a complete tag (at
least 7 bytes) from the buffer, so the zero-fuel case never fires. -/
theorem contentLoopF_fuel_irrelevant :
    ∀ (n : Nat) (buf : List Char), buf.length ≤ n →
    ∀ (st : FSMState) (fuel : Nat), buf.length < fuel →
    contentLoopF st buf fuel = contentLoop st buf := by
  intro n
  induction n with
  | zero =>
    intro buf hlen st fuel hfuel
    have hbuf : buf = [] := by
      cases buf with
      | nil => rfl
      | cons a as => simp at hlen
    subst hbuf
    rcases fuel with _ | f
    · omega
    · rfl
  | succ n ih =>
    intro buf hlen st fuel hfuel
    rcases fuel with _ | f
    · omega
    · show contentLoopF st buf (f + 1) = contentLoopF st buf (buf.length + 1)
      rcases hst : findSub thinkOpen buf with _ | s <;>
        rcases hen : findSub thinkClose buf with _ | e
      · simp only [contentLoopF, hst, hen]
      · have hle := findSub_some_le thinkClose buf e hen
        have h8 : thinkClose.length = 8 := rfl
        have hlt : (buf.drop (e + 8)).length < buf.length := by
          simp only [List.length_drop]
          omega
        have hrwL : ∀ s2, contentLoopF s2 (buf.drop (e + 8)) f
            = contentLoop s2 (buf.drop (e + 8)) := fun s2 =>
          ih (buf.drop (e + 8)) (by simp only [List.length_drop]; omega) s2 f
            (by omega)
        have hrwR : ∀ s2, contentLoopF s2 (buf.drop (e + 8)) buf.length
            = contentLoop s2 (buf.drop (e + 8)) := fun s2 =>
          ih (buf.drop (e + 8)) (by simp only [List.length_drop]; omega) s2
            buf.length (by omega)
        simp only [contentLoopF, hst, hen, hrwL, hrwR]
      · have hle := findSub_some_le thinkOpen buf s hst
        have h7 : thinkOpen.length = 7 := rfl
        have hrwL : ∀ s2, contentLoopF s2 (buf.drop (s + 7)) f
            = contentLoop s2 (buf.drop (s + 7)) := fun s2 =>
          ih (buf.drop (s + 7)) (by simp only [List.length_drop]; omega) s2 f
            (by simp only [List.length_drop]; omega)
        have hrwR : ∀ s2, contentLoopF s2 (buf.drop (s + 7)) buf.length
            = contentLoop s2 (buf.drop (s + 7)) := fun s2 =>
          ih (buf.drop (s + 7)) (by simp only [List.length_drop]; omega) s2
            buf.length (by simp only [List.length_drop]; omega)
        simp only [contentLoopF, hst, hen, hrwL, hrwR]
      · have hles := findSub_some_le thinkOpen buf s hst
        have hlee := findSub_some_le thinkClose buf e hen
        have h7 : thinkOpen.length = 7 := rfl
        have h8 : thinkClose.length = 8 := rfl
        have hrwLs : ∀ s2, contentLoopF s2 (buf.drop (s + 7)) f
            = contentLoop s2 (buf.drop (s + 7)) := fun s2 =>
          ih (buf.drop (s + 7)) (by simp only [List.length_drop]; omega) s2 f
            (by simp only [List.length_drop]; omega)
        have hrwRs : ∀ s2, contentLoopF s2 (buf.drop (s + 7)) buf.length
            = contentLoop s2 (buf.drop (s + 7)) := fun s2 =>
          ih (buf.drop (s + 7)) (by simp only [List.length_drop]; omega) s2
            buf.length (by simp only [List.length_drop]; omega)
        have hrwLe : ∀ s2, contentLoopF s2 (buf.drop (e + 8)) f
            = contentLoop s2 (buf.drop (e + 8)) := fun s2 =>
          ih (buf.drop (e + 8)) (by simp only [List.length_drop]; omega) s2 f
            (by simp only [List.length_drop]; omega)
        have hrwRe : ∀ s2, contentLoopF s2 (buf.drop (e + 8)) buf.length
            = contentLoop s2 (buf.drop (e + 8)) := fun s2 =>
          ih (buf.drop (e + 8)) (by simp only [List.length_drop]; omega) s2
            buf.length (by simp only [List.length_drop]; omega)
        simp only [contentLoopF, hst, hen, hrwLs, hrwRs, hrwLe, hrwRe]

/-- Pass 2: content with inline `<think>` handling; a `tool_use` block is
closed first, then the fragment is appended to the buffer and the loop
runs. -/
def contentPass (st : FSMState) (d : OADelta) : FSMState × List Event :=
  if d.content = [] then (st, [])
  else
    let p1 := if st.currentBlockType = "tool_use" then closeBlock st
              else (st, [])
    let p2 := contentLoop p1.1 (p1.1.contentBuffer ++ d.content)
    (p2.1, p1.2 ++ p2.2)

/-- One entry of the tool-call loop of pass 3. -/
def toolCallStep (st : FSMState) (tc : OAToolCallDelta) :
    FSMState × List Event :=
  let p2 :=
    if tc.index ≠ st.currentToolIndex ∨ tc.id ≠ "" then
      let p1 :=
        if st.currentBlockType = "tool_use" ∧ tc.index ≠ st.currentToolIndex
        then closeBlock st
        else (st, [])
      if tc.id ≠ "" then
        ({ p1.1 with currentToolIndex := tc.index, hasToolUse := true,
                     currentBlockIdx := p1.1.currentBlockIdx + 1,
                     currentBlockType := "tool_use" },
         p1.2 ++ [Event.blockStartTool (p1.1.currentBlockIdx + 1)
           tc.id tc.name])
      else (p1.1, p1.2)
    else (st, [])
  let e3 := if tc.arguments ≠ "" then
      [Event.blockDelta p2.1.currentBlockIdx (.inputJsonDelta tc.arguments)]
    else []
  (p2.1, p2.2 ++ e3)

/-- The `for _, tc := range delta.ToolCalls` loop. -/
def toolCallsFold (st : FSMState) : List OAToolCallDelta →
    FSMState × List Event
  | [] => (st, [])
  | tc :: rest =>
    let p1 := toolCallStep st tc
    let p2 := toolCallsFold p1.1 rest
    (p2.1, p1.2 ++ p2.2)

/-- Pass 3: tool calls; an open `text`/`thinking` block is closed first. -/
def toolPass (st : FSMState) (d : OADelta) : FSMState × List Event :=
  if 0 < d.toolCalls.length then
    let p1 := if st.currentBlockType = "text"
                 ∨ st.currentBlockType = "thinking" then closeBlock st
              else (st, [])
    let p2 := toolCallsFold p1.1 d.toolCalls
    (p2.1, p1.2 ++ p2.2)
  else (st, [])

/-- Processing of one decoded chunk: absorb usage, skip when no choices,
emit `message_start` on the first kept chunk, then the three passes. -/
def procChunk (st : FSMState) (c : OAStreamChunk) : FSMState × List Event :=
  let st :=
    match c.usage with
    | some u => { st with lastUsageIn := u.promptTokens,
                          lastUsageOut := u.completionTokens }
    | none => st
  match c.choices with
  | [] => (st, [])
  | d :: _ =>
    let p0 :=
      if ¬st.startedMessage then
        ({ st with startedMessage := true },
         [Event.messageStart st.lastUsageIn st.lastUsageOut])
      else (st, [])
    let p1 := reasoningPass p0.1 d
    let p2 := contentPass p1.1 d
    let p3 := toolPass p2.1 d
    (p3.1, p0.2 ++ p1.2 ++ p2.2 ++ p3.2)

/-- The `[DONE]` handler: flush the residual buffer, close the block,
emit `message_delta` with the computed `stop_reason` and the usage, then
`message_stop`. -/
def doneEvents (st : FSMState) : List Event :=
  let p1 := if st.contentBuffer ≠ [] then emitDelta st st.contentBuffer
            else (st, [])
  let st1 := { p1.1 with contentBuffer := [] }
  let p2 := closeBlock st1
  let stopReason := if p2.1.hasToolUse then "tool_use" else "end_turn"
  p1.2 ++ p2.2
    ++ [Event.messageDelta stopReason p2.1.lastUsageOut, Event.messageStop]

/-- One classified SSE line: skipped, the `[DONE]` terminator, or a
decoded chunk. -/
inductive SSEItem where
  | other
  | done
  | chunk (c : OAStreamChunk)
deriving Repr

/-- The read loop from a given state: `[DONE]` emits the trailer and
returns; a read error (end of the item list) exits without a trailer. -/
def runFrom (st : FSMState) : List SSEItem → List Event
  | [] => []
  | SSEItem.done :: _ => doneEvents st
  | SSEItem.other :: rest => runFrom st rest
  | SSEItem.chunk c :: rest =>
    let p := procChunk st c
    p.2 ++ runFrom p.1 rest

/-- The full streaming translator on a classified SSE line sequence. -/
def runFSM (items : List SSEItem) : List Event := runFrom initState items

def Event.isMessageStart : Event → Bool
  | .messageStart _ _ => true
  | _ => false

def Event.isMessageStop : Event → Bool
  | .messageStop => true
  | _ => false

/-- A `content_block_*` event. -/
def Event.isBlockEvent : Event → Bool
  | .blockStartText _ => true
  | .blockStartThinking _ => true
  | .blockStartTool _ _ _ => true
  | .blockDelta _ _ => true
  | .blockStop _ => true
  | _ => false

def Event.isBlockStart : Event → Bool
  | .blockStartText _ => true
  | .blockStartThinking _ => true
  | .blockStartTool _ _ _ => true
  | _ => false

def Event.isToolStart : Event → Bool
  | .blockStartTool _ _ _ => true
  | _ => false

def Event.isThinkingStart : Event → Bool
  | .blockStartThinking _ => true
  | _ => false

def Event.isTextStart : Event → Bool
  | .blockStartText _ => true
  | _ => false

/-- The concatenated `thinking_delta` payloads of an event sequence. -/
def thinkingPayload (evs : List Event) : List Char :=
  evs.flatMap (fun e =>
    match e with
    | .blockDelta _ (.thinkingDelta s) => s
    | _ => [])

/-- The concatenated `thinking_delta` and `text_delta` payloads. -/
def textualPayload (evs : List Event) : List Char :=
  evs.flatMap (fun e =>
    match e with
    | .blockDelta _ (.thinkingDelta s) => s
    | .blockDelta _ (.textDelta s) => s
    | _ => [])

/-- C1: on the upstream chunk `delta.content = "<think>a</think>"`
followed by `[DONE]`, the translator emits `content_block_stop` with
index 0 twice although only one `content_block_start` was emitted: the
`</think>` handler closes the thinking block, and the `[DONE]` handler's
`closeBlock` fires again because it tests `currentBlockIdx >= 0` rather
than whether a block is open. -/
theorem duplicate_block_stop_bug :
    (runFSM [SSEItem.chunk
        { choices := [{ content := "<think>a</think>".data }] },
      SSEItem.done]).countP (fun e => e = Event.blockStop 0) = 2 ∧
    (runFSM [SSEItem.chunk
        { choices := [{ content := "<think>a</think>".data }] },
      SSEItem.done]).countP (fun e => e.isBlockStart) = 1 ∧
    runFSM [SSEItem.chunk
        { choices := [{ content := "<think>a</think>".data }] },
      SSEItem.done]
      = [Event.messageStart 0 0, Event.blockStartThinking 0,
         Event.blockDelta 0 (.thinkingDelta "a".data),
         Event.blockStop 0, Event.blockStop 0,
         Event.messageDelta "end_turn" 0, Event.messageStop] := by
  refine ⟨by decide, by decide, by decide⟩

/-- The safe-prefix length as the specification words it: everything up
to the last `<` found within the final 20 bytes of the buffer, or the
whole buffer if there is none. -/
def specSafePrefixLen (buf : List Char) : Nat :=
  let w := buf.length - min buf.length 20
  match lastIndexByte '<' (buf.drop w) with
  | some j => w + j
  | none => buf.length

/-- The cutoff computed by the code's two branches (`len > 20` scanning
only the final 20 bytes, `len ≤ 20` scanning the whole buffer behind a
`strings.Contains` guard) equals the specification's safe-prefix
length. -/
theorem safeCutoff_spec (buf : List Char) :
    (if 20 < buf.length then
       match lastIndexByte '<' (buf.drop (buf.length - 20)) with
       | some j => buf.length - 20 + j
       | none => buf.length
     else
       if containsSub ['<'] buf then (lastIndexByte '<' buf).getD buf.length
       else buf.length)
    = specSafePrefixLen buf := by
  by_cases h : 20 < buf.length
  · have hw : buf.length - min buf.length 20 = buf.length - 20 := by omega
    simp only [specSafePrefixLen, hw, if_pos h]
  · have hw : buf.length - min buf.length 20 = 0 := by omega
    simp only [specSafePrefixLen, hw, if_neg h, List.drop_zero]
    by_cases hc : containsSub ['<'] buf = true
    · have hmem : '<' ∈ buf := (containsSub_singleton _ _).1 hc
      have hsome := (lastIndexByte_isSome '<' buf).2 hmem
      rcases hli : lastIndexByte '<' buf with _ | j
      · rw [hli] at hsome; cases hsome
      · simp [hc, hli]
    · have hnone : lastIndexByte '<' buf = none := by
        rcases hli : lastIndexByte '<' buf with _ | j
        · rfl
        · exfalso
          apply hc
          exact (containsSub_singleton _ _).2
            ((lastIndexByte_isSome '<' buf).1 (by rw [hli]; rfl))
      simp [hc, hnone]

/-- C3 general part: when the buffer holds no complete `<think>` or
`</think>` tag and a non-tool block (or none) is open, one pass of the
content loop emits exactly the safe prefix and retains exactly the unsafe
suffix. -/
theorem contentLoop_no_tags (st : FSMState) (buf : List Char)
    (h1 : findSub thinkOpen buf = none) (h2 : findSub thinkClose buf = none)
    (h3 : st.currentBlockType = "" ∨ st.currentBlockType = "text"
          ∨ st.currentBlockType = "thinking") :
    (contentLoop st buf).1.contentBuffer = buf.drop (specSafePrefixLen buf) ∧
    textualPayload (contentLoop st buf).2
      = buf.take (specSafePrefixLen buf) := by
  have hcut := safeCutoff_spec buf
  simp only [contentLoop, contentLoopF, h1, h2]
  rw [hcut]
  by_cases hsafe : buf.take (specSafePrefixLen buf) = []
  · simp [hsafe, textualPayload]
  · simp only [ne_eq, hsafe, not_false_iff, if_true]
    rcases h3 with h3 | h3 | h3
    · simp [emitDelta, textualPayload, h3, hsafe]
    · have hne : ¬ st.currentBlockType = "" := by rw [h3]; decide
      simp [emitDelta, textualPayload, h3, hne, hsafe]
    · have hne : ¬ st.currentBlockType = "" := by rw [h3]; decide
      simp [emitDelta, textualPayload, h3, hne, hsafe]

/-- C3: the upstream fragments `<thi` and `nk>hello</think>` produce
exactly one thinking block whose concatenated `thinking_delta` payloads
are `hello` and no text block; and in general, with no complete tag in
the buffer, exactly the safe prefix (up to the last `<` within the final
20 bytes, or the whole buffer when there is none) is emitted and the rest
retained. -/
theorem think_tag_split_safe_prefix :
    ((runFSM [SSEItem.chunk { choices := [{ content := "<thi".data }] },
        SSEItem.chunk { choices := [{ content := "nk>hello</think>".data }] },
        SSEItem.done]).countP (fun e => e.isThinkingStart) = 1 ∧
     thinkingPayload
       (runFSM [SSEItem.chunk { choices := [{ content := "<thi".data }] },
         SSEItem.chunk
           { choices := [{ content := "nk>hello</think>".data }] },
         SSEItem.done]) = "hello".data ∧
     (runFSM [SSEItem.chunk { choices := [{ content := "<thi".data }] },
        SSEItem.chunk { choices := [{ content := "nk>hello</think>".data }] },
        SSEItem.done]).countP (fun e => e.isTextStart) = 0) ∧
    (∀ (st : FSMState) (buf : List Char),
      findSub thinkOpen buf = none → findSub thinkClose buf = none →
      (st.currentBlockType = "" ∨ st.currentBlockType = "text"
        ∨ st.currentBlockType = "thinking") →
      (contentLoop st buf).1.contentBuffer
        = buf.drop (specSafePrefixLen buf) ∧
      textualPayload (contentLoop st buf).2
        = buf.take (specSafePrefixLen buf)) := by
  refine ⟨⟨by decide, by decide, by decide⟩, ?_⟩
  intro st buf h1 h2 h3
  exact contentLoop_no_tags st buf h1 h2 h3

/-- Witness for `think_tag_split_safe_prefix` at a concrete buffer with a
partial tag: `ab<c` emits `ab` and retains `<c`. -/
theorem think_tag_split_safe_prefix_witness :
    findSub thinkOpen "ab<c".data = none ∧
    findSub thinkClose "ab<c".data = none ∧
    (initState.currentBlockType = "" ∨ initState.currentBlockType = "text"
      ∨ initState.currentBlockType = "thinking") ∧
    (contentLoop initState "ab<c".data).1.contentBuffer = "<c".data ∧
    textualPayload (contentLoop initState "ab<c".data).2 = "ab".data := by
  have h := think_tag_split_safe_prefix.2 initState "ab<c".data
    (by decide) (by decide) (Or.inl rfl)
  refine ⟨by decide, by decide, Or.inl rfl, ?_, ?_⟩
  · rw [h.1]
    decide
  · rw [h.2]
    decide

/-! ### Frame lemmas for the passes

The three passes only write `content_block_*` events and never touch
`startedMessage` or the usage counters; only the tool pass can set
`hasToolUse`, and it does so exactly when it emits a `tool_use`
`content_block_start`. -/

/-- Fields of the state the emit/close/content machinery never writes. -/
def framePreserved (st st' : FSMState) : Prop :=
  st'.startedMessage = st.startedMessage ∧
  st'.lastUsageIn = st.lastUsageIn ∧
  st'.lastUsageOut = st.lastUsageOut ∧
  st'.hasToolUse = st.hasToolUse

/-- Events a pass may write: only `content_block_*`, and for the
non-tool machinery no `tool_use` block start. -/
def passEventsOk (evs : List Event) : Prop :=
  evs.all Event.isBlockEvent = true ∧ evs.any Event.isToolStart = false

theorem passEventsOk_nil : passEventsOk [] := ⟨rfl, rfl⟩

theorem passEventsOk_append {a b : List Event} (ha : passEventsOk a)
    (hb : passEventsOk b) : passEventsOk (a ++ b) := by
  obtain ⟨ha1, ha2⟩ := ha
  obtain ⟨hb1, hb2⟩ := hb
  constructor
  · simp [List.all_append, ha1, hb1]
  · simp [List.any_append, ha2, hb2]

theorem framePreserved_refl (st : FSMState) : framePreserved st st :=
  ⟨rfl, rfl, rfl, rfl⟩

theorem framePreserved_trans {a b c : FSMState} (h1 : framePreserved a b)
    (h2 : framePreserved b c) : framePreserved a c := by
  obtain ⟨x1, x2, x3, x4⟩ := h1
  obtain ⟨y1, y2, y3, y4⟩ := h2
  exact ⟨y1.trans x1, y2.trans x2, y3.trans x3, y4.trans x4⟩

theorem emitDelta_nil (st : FSMState) : emitDelta st [] = (st, []) := by
  simp [emitDelta]

/-- Running `emitDelta` with no open block opens a text block. -/
theorem emitDelta_open (st : FSMState) (text : List Char) (h0 : text ≠ [])
    (h1 : st.currentBlockType = "") :
    emitDelta st text =
      ({ st with currentBlockIdx := st.currentBlockIdx + 1,
                 currentBlockType := "text" },
       [Event.blockStartText (st.currentBlockIdx + 1),
        Event.blockDelta (st.currentBlockIdx + 1) (.textDelta text)]) := by
  simp only [emitDelta, if_neg h0, if_pos h1]
  rw [if_neg (show ¬ ("text" : String) = "thinking" by decide)]
  simp

/-- Running `emitDelta` into an open thinking block. -/
theorem emitDelta_thinking (st : FSMState) (text : List Char) (h0 : text ≠ [])
    (h2 : st.currentBlockType = "thinking") :
    emitDelta st text =
      (st, [Event.blockDelta st.currentBlockIdx (.thinkingDelta text)]) := by
  have h1 : ¬ st.currentBlockType = "" := by rw [h2]; decide
  simp only [emitDelta, if_neg h0, if_neg h1, if_pos h2]
  simp

/-- Running `emitDelta` into an open text block. -/
theorem emitDelta_text (st : FSMState) (text : List Char) (h0 : text ≠ [])
    (h3 : st.currentBlockType = "text") :
    emitDelta st text =
      (st, [Event.blockDelta st.currentBlockIdx (.textDelta text)]) := by
  have h1 : ¬ st.currentBlockType = "" := by rw [h3]; decide
  have h2 : ¬ st.currentBlockType = "thinking" := by rw [h3]; decide
  simp only [emitDelta, if_neg h0, if_neg h1, if_neg h2, if_pos h3]
  simp

/-- Running `emitDelta` into an open `tool_use` (or unknown) block: the Go switch
has no case, so nothing is emitted. -/
theorem emitDelta_other (st : FSMState) (text : List Char) (h0 : text ≠ [])
    (h1 : ¬ st.currentBlockType = "")
    (h2 : ¬ st.currentBlockType = "thinking")
    (h3 : ¬ st.currentBlockType = "text") :
    emitDelta st text = (st, []) := by
  simp only [emitDelta, if_neg h0, if_neg h1, if_neg h2, if_neg h3]

theorem emitDelta_frame (st : FSMState) (text : List Char) :
    framePreserved st (emitDelta st text).1 ∧
    passEventsOk (emitDelta st text).2 := by
  by_cases h0 : text = []
  · rw [h0, emitDelta_nil]
    exact ⟨framePreserved_refl st, passEventsOk_nil⟩
  · by_cases h1 : st.currentBlockType = ""
    · rw [emitDelta_open st text h0 h1]
      exact ⟨⟨rfl, rfl, rfl, rfl⟩,
        by simp [passEventsOk, Event.isBlockEvent, Event.isToolStart]⟩
    · by_cases h2 : st.currentBlockType = "thinking"
      · rw [emitDelta_thinking st text h0 h2]
        exact ⟨framePreserved_refl st,
          by simp [passEventsOk, Event.isBlockEvent, Event.isToolStart]⟩
      · by_cases h3 : st.currentBlockType = "text"
        · rw [emitDelta_text st text h0 h3]
          exact ⟨framePreserved_refl st,
            by simp [passEventsOk, Event.isBlockEvent, Event.isToolStart]⟩
        · rw [emitDelta_other st text h0 h1 h2 h3]
          exact ⟨framePreserved_refl st, passEventsOk_nil⟩

theorem closeBlock_frame (st : FSMState) :
    framePreserved st (closeBlock st).1 ∧ passEventsOk (closeBlock st).2 := by
  refine ⟨⟨rfl, rfl, rfl, rfl⟩, ?_⟩
  by_cases h : 0 ≤ st.currentBlockIdx
  · simp [closeBlock, h, passEventsOk, Event.isBlockEvent, Event.isToolStart]
  · simp [closeBlock, h, passEventsOk]

theorem reasoningPass_frame (st : FSMState) (d : OADelta) :
    framePreserved st (reasoningPass st d).1 ∧
    passEventsOk (reasoningPass st d).2 := by
  simp only [reasoningPass]
  set r := if d.reasoningContent ≠ [] then d.reasoningContent
    else d.reasoning with hr
  by_cases h0 : r = []
  · rw [if_pos h0]
    exact ⟨framePreserved_refl st, passEventsOk_nil⟩
  · rw [if_neg h0]
    by_cases h1 : st.currentBlockType ≠ "thinking"
    · rw [if_pos h1]
      have hc := closeBlock_frame st
      have he := emitDelta_frame
        { (closeBlock st).1 with
          currentBlockIdx := (closeBlock st).1.currentBlockIdx + 1,
          currentBlockType := "thinking" } r
      constructor
      · exact framePreserved_trans (framePreserved_trans hc.1
          ⟨rfl, rfl, rfl, rfl⟩) he.1
      · refine passEventsOk_append (passEventsOk_append hc.2 ?_) he.2
        simp [passEventsOk, Event.isBlockEvent, Event.isToolStart]
    · rw [if_neg h1]
      exact ⟨(emitDelta_frame st r).1, (emitDelta_frame st r).2⟩

theorem contentLoopF_frame (fuel : Nat) :
    ∀ (st : FSMState) (buf : List Char),
    framePreserved st (contentLoopF st buf fuel).1 ∧
    passEventsOk (contentLoopF st buf fuel).2 := by
  induction fuel with
  | zero =>
    intro st buf
    exact ⟨framePreserved_refl st, passEventsOk_nil⟩
  | succ fuel ih =>
    intro st buf
    simp only [contentLoopF]
    split
    · rename_i hst hen
      have key : ∀ (c : Nat),
          framePreserved st
            ((({ ((if buf.take c ≠ [] then emitDelta st (buf.take c)
                else (st, [])).1) with contentBuffer := buf.drop c },
              (if buf.take c ≠ [] then emitDelta st (buf.take c)
                else (st, [])).2) : FSMState × List Event)).1 ∧
          passEventsOk ((({ ((if buf.take c ≠ [] then emitDelta st (buf.take c)
                else (st, [])).1) with contentBuffer := buf.drop c },
              (if buf.take c ≠ [] then emitDelta st (buf.take c)
                else (st, [])).2) : FSMState × List Event)).2 := by
        intro c
        by_cases hc : buf.take c = []
        · rw [if_neg (show ¬ (buf.take c ≠ []) from by simp [hc])]
          exact ⟨⟨rfl, rfl, rfl, rfl⟩, passEventsOk_nil⟩
        · rw [if_pos hc]
          have he := emitDelta_frame st (buf.take c)
          exact ⟨⟨he.1.1, he.1.2.1, he.1.2.2.1, he.1.2.2.2⟩, he.2⟩
      exact key _
    · rename_i s hst hen
      have he := emitDelta_frame st (buf.take s)
      set q1 := if buf.take s ≠ [] then emitDelta st (buf.take s) else (st, [])
        with hq1
      have h1 : framePreserved st q1.1 ∧ passEventsOk q1.2 := by
        rw [hq1]
        split
        · exact he
        · exact ⟨framePreserved_refl st, passEventsOk_nil⟩
      set q2 := if q1.1.currentBlockType = "text" then closeBlock q1.1
        else (q1.1, []) with hq2
      have h2 : framePreserved q1.1 q2.1 ∧ passEventsOk q2.2 := by
        rw [hq2]
        split
        · exact closeBlock_frame q1.1
        · exact ⟨framePreserved_refl q1.1, passEventsOk_nil⟩
      set q3 := if q2.1.currentBlockType ≠ "thinking" then
          ({ q2.1 with currentBlockIdx := q2.1.currentBlockIdx + 1,
                       currentBlockType := "thinking" },
           [Event.blockStartThinking (q2.1.currentBlockIdx + 1)])
        else (q2.1, ([] : List Event)) with hq3
      have h3 : framePreserved q2.1 q3.1 ∧ passEventsOk q3.2 := by
        rw [hq3]
        split
        · refine ⟨⟨rfl, rfl, rfl, rfl⟩, ?_⟩
          simp [passEventsOk, Event.isBlockEvent, Event.isToolStart]
        · exact ⟨framePreserved_refl q2.1, passEventsOk_nil⟩
      have h4 := ih q3.1 (buf.drop (s + 7))
      refine ⟨framePreserved_trans (framePreserved_trans
        (framePreserved_trans h1.1 h2.1) h3.1) h4.1, ?_⟩
      exact passEventsOk_append (passEventsOk_append
        (passEventsOk_append h1.2 h2.2) h3.2) h4.2
    · rename_i e hst hen
      have he := emitDelta_frame st (buf.take e)
      set q1 := if buf.take e ≠ [] then emitDelta st (buf.take e) else (st, [])
        with hq1
      have h1 : framePreserved st q1.1 ∧ passEventsOk q1.2 := by
        rw [hq1]
        split
        · exact he
        · exact ⟨framePreserved_refl st, passEventsOk_nil⟩
      set q2 := if q1.1.currentBlockType = "thinking" then closeBlock q1.1
        else (q1.1, []) with hq2
      have h2 : framePreserved q1.1 q2.1 ∧ passEventsOk q2.2 := by
        rw [hq2]
        split
        · exact closeBlock_frame q1.1
        · exact ⟨framePreserved_refl q1.1, passEventsOk_nil⟩
      have h4 := ih q2.1 (buf.drop (e + 8))
      refine ⟨framePreserved_trans (framePreserved_trans h1.1 h2.1) h4.1, ?_⟩
      exact passEventsOk_append (passEventsOk_append h1.2 h2.2) h4.2
    · rename_i s e hst hen
      split
      · have he := emitDelta_frame st (buf.take s)
        set q1 := if buf.take s ≠ [] then emitDelta st (buf.take s)
          else (st, []) with hq1
        have h1 : framePreserved st q1.1 ∧ passEventsOk q1.2 := by
          rw [hq1]
          split
          · exact he
          · exact ⟨framePreserved_refl st, passEventsOk_nil⟩
        set q2 := if q1.1.currentBlockType = "text" then closeBlock q1.1
          else (q1.1, []) with hq2
        have h2 : framePreserved q1.1 q2.1 ∧ passEventsOk q2.2 := by
          rw [hq2]
          split
          · exact closeBlock_frame q1.1
          · exact ⟨framePreserved_refl q1.1, passEventsOk_nil⟩
        set q3 := if q2.1.currentBlockType ≠ "thinking" then
            ({ q2.1 with currentBlockIdx := q2.1.currentBlockIdx + 1,
                         currentBlockType := "thinking" },
             [Event.blockStartThinking (q2.1.currentBlockIdx + 1)])
          else (q2.1, ([] : List Event)) with hq3
        have h3 : framePreserved q2.1 q3.1 ∧ passEventsOk q3.2 := by
          rw [hq3]
          split
          · refine ⟨⟨rfl, rfl, rfl, rfl⟩, ?_⟩
            simp [passEventsOk, Event.isBlockEvent, Event.isToolStart]
          · exact ⟨framePreserved_refl q2.1, passEventsOk_nil⟩
        have h4 := ih q3.1 (buf.drop (s + 7))
        refine ⟨framePreserved_trans (framePreserved_trans
          (framePreserved_trans h1.1 h2.1) h3.1) h4.1, ?_⟩
        exact passEventsOk_append (passEventsOk_append
          (passEventsOk_append h1.2 h2.2) h3.2) h4.2
      · have he := emitDelta_frame st (buf.take e)
        set q1 := if buf.take e ≠ [] then emitDelta st (buf.take e)
          else (st, []) with hq1
        have h1 : framePreserved st q1.1 ∧ passEventsOk q1.2 := by
          rw [hq1]
          split
          · exact he
          · exact ⟨framePreserved_refl st, passEventsOk_nil⟩
        set q2 := if q1.1.currentBlockType = "thinking" then closeBlock q1.1
          else (q1.1, []) with hq2
        have h2 : framePreserved q1.1 q2.1 ∧ passEventsOk q2.2 := by
          rw [hq2]
          split
          · exact closeBlock_frame q1.1
          · exact ⟨framePreserved_refl q1.1, passEventsOk_nil⟩
        have h4 := ih q2.1 (buf.drop (e + 8))
        refine ⟨framePreserved_trans (framePreserved_trans h1.1 h2.1) h4.1, ?_⟩
        exact passEventsOk_append (passEventsOk_append h1.2 h2.2) h4.2

theorem contentPass_frame (st : FSMState) (d : OADelta) :
    framePreserved st (contentPass st d).1 ∧
    passEventsOk (contentPass st d).2 := by
  simp only [contentPass]
  split
  · exact ⟨framePreserved_refl st, passEventsOk_nil⟩
  · set q1 := if st.currentBlockType = "tool_use" then closeBlock st
      else (st, []) with hq1
    have h1 : framePreserved st q1.1 ∧ passEventsOk q1.2 := by
      rw [hq1]
      split
      · exact closeBlock_frame st
      · exact ⟨framePreserved_refl st, passEventsOk_nil⟩
    have h2 := contentLoopF_frame (q1.1.contentBuffer ++ d.content).length.succ
      q1.1 (q1.1.contentBuffer ++ d.content)
    refine ⟨framePreserved_trans h1.1 h2.1, passEventsOk_append h1.2 h2.2⟩

/-- Tool-pass frame: `startedMessage` and the usage counters are
untouched, every event is a `content_block_*` event, and `hasToolUse`
afterwards is `hasToolUse` before OR a `tool_use` block start was
emitted. -/
def toolFrame (st st' : FSMState) (evs : List Event) : Prop :=
  st'.startedMessage = st.startedMessage ∧
  st'.lastUsageIn = st.lastUsageIn ∧
  st'.lastUsageOut = st.lastUsageOut ∧
  st'.hasToolUse = (st.hasToolUse || evs.any Event.isToolStart) ∧
  evs.all Event.isBlockEvent = true

theorem toolCallStep_frame (st : FSMState) (tc : OAToolCallDelta) :
    toolFrame st (toolCallStep st tc).1 (toolCallStep st tc).2 := by
  simp only [toolCallStep]
  by_cases hcond : tc.index ≠ st.currentToolIndex ∨ tc.id ≠ ""
  · rw [if_pos hcond]
    set p1 := if st.currentBlockType = "tool_use"
        ∧ tc.index ≠ st.currentToolIndex then closeBlock st
      else (st, []) with hp1
    have h1 : framePreserved st p1.1 ∧ passEventsOk p1.2 := by
      rw [hp1]
      split
      · exact closeBlock_frame st
      · exact ⟨framePreserved_refl st, passEventsOk_nil⟩
    by_cases hid : tc.id ≠ ""
    · rw [if_pos hid]
      refine ⟨h1.1.1, h1.1.2.1, h1.1.2.2.1, ?_, ?_⟩
      · have : ((p1.2 ++ [Event.blockStartTool (p1.1.currentBlockIdx + 1)
            tc.id tc.name]) ++ (if tc.arguments ≠ "" then
              [Event.blockDelta (p1.1.currentBlockIdx + 1)
                (.inputJsonDelta tc.arguments)] else [])).any
            Event.isToolStart = true := by
          simp [List.any_append, Event.isToolStart]
        rw [this]
        simp
      · have hb1 := h1.2.1
        split <;>
          simp [List.all_append, hb1, Event.isBlockEvent]
    · rw [if_neg hid]
      refine ⟨h1.1.1, h1.1.2.1, h1.1.2.2.1, ?_, ?_⟩
      · have hany : (p1.2 ++ (if tc.arguments ≠ "" then
            [Event.blockDelta p1.1.currentBlockIdx
              (.inputJsonDelta tc.arguments)] else [])).any
            Event.isToolStart = false := by
          have := h1.2.2
          split <;> simp [List.any_append, this, Event.isToolStart]
        rw [hany, Bool.or_false, h1.1.2.2.2]
      · have hb1 := h1.2.1
        split <;> simp [List.all_append, hb1, Event.isBlockEvent]
  · rw [if_neg hcond]
    refine ⟨rfl, rfl, rfl, ?_, ?_⟩
    · have hany : (([] : List Event) ++ (if tc.arguments ≠ "" then
          [Event.blockDelta st.currentBlockIdx
            (.inputJsonDelta tc.arguments)] else [])).any
          Event.isToolStart = false := by
        split <;> simp [Event.isToolStart]
      rw [hany, Bool.or_false]
    · split <;> simp [Event.isBlockEvent]

theorem toolCallsFold_frame (tcs : List OAToolCallDelta) :
    ∀ st, toolFrame st (toolCallsFold st tcs).1 (toolCallsFold st tcs).2 := by
  induction tcs with
  | nil =>
    intro st
    exact ⟨rfl, rfl, rfl, by simp [toolCallsFold], by simp [toolCallsFold]⟩
  | cons tc rest ih =>
    intro st
    simp only [toolCallsFold]
    have h1 := toolCallStep_frame st tc
    have h2 := ih (toolCallStep st tc).1
    refine ⟨h2.1.trans h1.1, h2.2.1.trans h1.2.1,
      h2.2.2.1.trans h1.2.2.1, ?_, ?_⟩
    · rw [h2.2.2.2.1, h1.2.2.2.1]
      simp [List.any_append, Bool.or_assoc]
    · simp [List.all_append, h1.2.2.2.2, h2.2.2.2.2]

theorem toolPass_frame (st : FSMState) (d : OADelta) :
    toolFrame st (toolPass st d).1 (toolPass st d).2 := by
  simp only [toolPass]
  split
  · set p1 := if st.currentBlockType = "text"
        ∨ st.currentBlockType = "thinking" then closeBlock st
      else (st, []) with hp1
    have h1 : framePreserved st p1.1 ∧ passEventsOk p1.2 := by
      rw [hp1]
      split
      · exact closeBlock_frame st
      · exact ⟨framePreserved_refl st, passEventsOk_nil⟩
    have h2 := toolCallsFold_frame d.toolCalls p1.1
    refine ⟨h2.1.trans h1.1.1, h2.2.1.trans h1.1.2.1,
      h2.2.2.1.trans h1.1.2.2.1, ?_, ?_⟩
    · rw [h2.2.2.2.1, h1.1.2.2.2]
      simp [List.any_append, h1.2.2]
    · simp [List.all_append, h1.2.1, h2.2.2.2.2]
  · exact ⟨rfl, rfl, rfl, by simp, by simp⟩

/-- A state with no block ever opened and an empty buffer. -/
def Pristine (st : FSMState) : Prop :=
  st.currentBlockIdx = -1 ∧ st.currentBlockType = "" ∧ st.contentBuffer = []

/-- Behaviour of one chunk: the started flag latches once a chunk with
choices arrives; `hasToolUse` grows exactly with emitted `tool_use`
starts; all events are `content_block_*` or `message_start`; a chunk with
no choices emits nothing and only absorbs usage; from an unstarted state
a kept chunk emits `message_start` first. -/
theorem procChunk_spec (st : FSMState) (c : OAStreamChunk) :
    ((procChunk st c).1.startedMessage
      = (st.startedMessage || !c.choices.isEmpty)) ∧
    ((procChunk st c).1.hasToolUse
      = (st.hasToolUse || (procChunk st c).2.any Event.isToolStart)) ∧
    (st.startedMessage = true →
      (procChunk st c).2.all Event.isBlockEvent = true) ∧
    (st.startedMessage = false → c.choices ≠ [] →
      ∃ i o rest, (procChunk st c).2 = Event.messageStart i o :: rest ∧
        rest.all Event.isBlockEvent = true) ∧
    (c.choices = [] → (procChunk st c).2 = [] ∧
      (procChunk st c).1.startedMessage = st.startedMessage ∧
      (procChunk st c).1.hasToolUse = st.hasToolUse ∧
      (procChunk st c).1.currentBlockIdx = st.currentBlockIdx ∧
      (procChunk st c).1.currentBlockType = st.currentBlockType ∧
      (procChunk st c).1.contentBuffer = st.contentBuffer) := by
  simp only [procChunk]
  set st0 := (match c.usage with
    | some u => { st with lastUsageIn := u.promptTokens,
                          lastUsageOut := u.completionTokens }
    | none => st) with hst0
  have hst0f : st0.startedMessage = st.startedMessage ∧
      st0.hasToolUse = st.hasToolUse ∧
      st0.currentBlockIdx = st.currentBlockIdx ∧
      st0.currentBlockType = st.currentBlockType ∧
      st0.contentBuffer = st.contentBuffer := by
    rw [hst0]
    rcases c.usage with _ | u
    · exact ⟨rfl, rfl, rfl, rfl, rfl⟩
    · exact ⟨rfl, rfl, rfl, rfl, rfl⟩
  rcases hch : c.choices with _ | ⟨d, ds⟩
  · refine ⟨?_, ?_, ?_, ?_, ?_⟩
    · simp [hch, hst0f.1]
    · simp [hch, hst0f.2.1]
    · intro _
      simp [hch]
    · intro _ habs
      exact absurd rfl habs
    · intro _
      simp only [hch]
      exact ⟨trivial, hst0f.1, hst0f.2.1, hst0f.2.2.1, hst0f.2.2.2.1,
        hst0f.2.2.2.2⟩
  · simp only [hch]
    set p0 := if ¬st0.startedMessage then
        ({ st0 with startedMessage := true },
         [Event.messageStart st0.lastUsageIn st0.lastUsageOut])
      else (st0, ([] : List Event)) with hp0
    have hp0started : p0.1.startedMessage = true := by
      rw [hp0]
      split
      · rfl
      · rename_i hns
        rw [hst0f.1]
        rw [hst0f.1] at hns
        revert hns
        cases st.startedMessage <;> simp
    have hp0tool : p0.1.hasToolUse = st0.hasToolUse := by
      rw [hp0]
      split <;> rfl
    have hp0any : p0.2.any Event.isToolStart = false := by
      rw [hp0]
      split <;> simp [Event.isToolStart]
    have hp0c1 : st.startedMessage = true → p0.2 = [] := by
      intro h
      rw [hp0, if_neg]
      rw [hst0f.1, h]
      simp
    have hp0c2 : st.startedMessage = false →
        p0.2 = [Event.messageStart st0.lastUsageIn st0.lastUsageOut] := by
      intro h
      rw [hp0, if_pos]
      rw [hst0f.1, h]
      simp
    have hr := reasoningPass_frame p0.1 d
    have hc2 := contentPass_frame (reasoningPass p0.1 d).1 d
    have ht := toolPass_frame (contentPass (reasoningPass p0.1 d).1 d).1 d
    refine ⟨?_, ?_, ?_, ?_, ?_⟩
    · rw [ht.1, hc2.1.1, hr.1.1, hp0started]
      simp
    · rw [ht.2.2.2.1, hc2.1.2.2.2, hr.1.2.2.2, hp0tool, hst0f.2.1]
      have : (p0.2 ++ ((reasoningPass p0.1 d).2
          ++ ((contentPass (reasoningPass p0.1 d).1 d).2
            ++ (toolPass (contentPass (reasoningPass p0.1 d).1 d).1 d).2))).any
            Event.isToolStart
          = (toolPass (contentPass (reasoningPass p0.1 d).1 d).1 d).2.any
            Event.isToolStart := by
        simp [List.any_append, hp0any, hr.2.2, hc2.2.2]
      rw [show (p0.2 ++ (reasoningPass p0.1 d).2
          ++ (contentPass (reasoningPass p0.1 d).1 d).2
          ++ (toolPass (contentPass (reasoningPass p0.1 d).1 d).1 d).2)
          = (p0.2 ++ ((reasoningPass p0.1 d).2
          ++ ((contentPass (reasoningPass p0.1 d).1 d).2
            ++ (toolPass (contentPass (reasoningPass p0.1 d).1 d).1 d).2)))
        from by simp [List.append_assoc]]
      rw [this]
    · intro h
      rw [hp0c1 h]
      simp [List.all_append, hr.2.1, hc2.2.1, ht.2.2.2.2]
    · intro h _
      refine ⟨st0.lastUsageIn, st0.lastUsageOut,
        (reasoningPass p0.1 d).2
          ++ (contentPass (reasoningPass p0.1 d).1 d).2
          ++ (toolPass (contentPass (reasoningPass p0.1 d).1 d).1 d).2, ?_, ?_⟩
      · rw [hp0c2 h]
        simp [List.append_assoc]
      · simp [List.all_append, hr.2.1, hc2.2.1, ht.2.2.2.2]
    · intro habs
      simp at habs

theorem blockEvent_classify (e : Event) (h : e.isBlockEvent = true) :
    e.isMessageStart = false ∧ e.isMessageStop = false := by
  cases e <;> simp_all [Event.isBlockEvent, Event.isMessageStart,
    Event.isMessageStop]

theorem countP_msgStart_zero (evs : List Event)
    (h : evs.all Event.isBlockEvent = true) :
    evs.countP (fun e => e.isMessageStart) = 0 := by
  rw [List.countP_eq_zero]
  intro e he
  rw [List.all_eq_true] at h
  simp [(blockEvent_classify e (h e he)).1]

theorem countP_msgStop_zero (evs : List Event)
    (h : evs.all Event.isBlockEvent = true) :
    evs.countP (fun e => e.isMessageStop) = 0 := by
  rw [List.countP_eq_zero]
  intro e he
  rw [List.all_eq_true] at h
  simp [(blockEvent_classify e (h e he)).2]

/-- The `[DONE]` handler ends in a `message_delta` carrying the computed
`stop_reason` and the stored output-token usage, then `message_stop`; the
flush/close prefix is all `content_block_*` events and opens no
`tool_use` block. -/
theorem doneEvents_spec (st : FSMState) :
    ∃ pre, doneEvents st
      = pre ++ [Event.messageDelta
          (if st.hasToolUse then "tool_use" else "end_turn") st.lastUsageOut,
        Event.messageStop] ∧
      pre.all Event.isBlockEvent = true ∧
      pre.any Event.isToolStart = false := by
  simp only [doneEvents]
  set p1 := if st.contentBuffer ≠ [] then emitDelta st st.contentBuffer
    else (st, []) with hp1
  have h1 : framePreserved st p1.1 ∧ passEventsOk p1.2 := by
    rw [hp1]
    split
    · exact emitDelta_frame st st.contentBuffer
    · exact ⟨framePreserved_refl st, passEventsOk_nil⟩
  set st1 := { p1.1 with contentBuffer := ([] : List Char) } with hst1
  have h2 := closeBlock_frame st1
  refine ⟨p1.2 ++ (closeBlock st1).2, ?_, ?_, ?_⟩
  · have hht : (closeBlock st1).1.hasToolUse = st.hasToolUse := by
      rw [h2.1.2.2.2]
      exact h1.1.2.2.2
    have huse : (closeBlock st1).1.lastUsageOut = st.lastUsageOut := by
      rw [h2.1.2.2.1]
      exact h1.1.2.2.1
    rw [hht, huse]
  · simp [List.all_append, h1.2.1, h2.2.1]
  · simp [List.any_append, h1.2.2, h2.2.2]

/-- From a state that never opened a block and holds no buffered bytes,
the `[DONE]` handler emits only the trailer. -/
theorem doneEvents_pristine (st : FSMState) (h1 : st.contentBuffer = [])
    (h2 : st.currentBlockIdx = -1) :
    doneEvents st = [Event.messageDelta
      (if st.hasToolUse then "tool_use" else "end_turn") st.lastUsageOut,
      Event.messageStop] := by
  simp only [doneEvents]
  rw [if_neg (show ¬ st.contentBuffer ≠ [] from by simp [h1])]
  simp only [closeBlock]
  rw [if_neg (show ¬ ((0 : Int) ≤ st.currentBlockIdx) from by
    rw [h2]; decide)]
  simp

/-- At most one `message_start` is ever written, and none once the
started flag is set. -/
theorem runFrom_msgStart_count (items : List SSEItem) :
    ∀ st, (runFrom st items).countP (fun e => e.isMessageStart)
      ≤ if st.startedMessage then 0 else 1 := by
  induction items with
  | nil =>
    intro st
    simp [runFrom]
  | cons it rest ih =>
    intro st
    match it with
    | .other =>
      simpa [runFrom] using ih st
    | .done =>
      obtain ⟨pre, heq, hall, -⟩ := doneEvents_spec st
      simp only [runFrom]
      rw [heq, List.countP_append, countP_msgStart_zero pre hall]
      simp [Event.isMessageStart]
    | .chunk c =>
      have hspec := procChunk_spec st c
      simp only [runFrom]
      rw [List.countP_append]
      by_cases hs : st.startedMessage
      · have h0 := countP_msgStart_zero _ (hspec.2.2.1 hs)
        have hstarted' : (procChunk st c).1.startedMessage = true := by
          rw [hspec.1, hs]
          simp
        have hrest := ih (procChunk st c).1
        rw [hstarted'] at hrest
        simp only [if_pos hs, h0]
        simpa using hrest
      · rw [Bool.not_eq_true] at hs
        rcases hch : c.choices with _ | ⟨d, ds⟩
        · have he := hspec.2.2.2.2 hch
          rw [he.1]
          have hrest := ih (procChunk st c).1
          rw [he.2.1, hs] at hrest
          simp only [hs, List.countP_nil, Nat.zero_add]
          simpa using hrest
        · obtain ⟨i, o, r2, heq, hall⟩ := hspec.2.2.2.1 hs
            (by rw [hch]; simp)
          have hstarted' : (procChunk st c).1.startedMessage = true := by
            rw [hspec.1, hs, hch]
            simp
          have hrest := ih (procChunk st c).1
          rw [hstarted'] at hrest
          rw [heq]
          simp only [List.countP_cons, countP_msgStart_zero r2 hall]
          have hone : Event.isMessageStart (Event.messageStart i o) = true := rfl
          simp only [hone, if_true]
          simp [hs] at hrest ⊢
          exact hrest

/-- Pristine survives chunks that are skipped, and before `message_start`
no `content_block_*` event is written. -/
theorem runFrom_no_early_block (items : List SSEItem) :
    ∀ st, st.startedMessage = false → Pristine st →
    ((runFrom st items).takeWhile (fun e => !e.isMessageStart)).all
      (fun e => !e.isBlockEvent) = true := by
  induction items with
  | nil =>
    intro st _ _
    simp [runFrom]
  | cons it rest ih =>
    intro st hs hp
    match it with
    | .other =>
      simpa [runFrom] using ih st hs hp
    | .done =>
      simp only [runFrom]
      rw [doneEvents_pristine st hp.2.2 hp.1]
      simp [Event.isMessageStart, Event.isBlockEvent]
    | .chunk c =>
      have hspec := procChunk_spec st c
      simp only [runFrom]
      rcases hch : c.choices with _ | ⟨d, ds⟩
      · have he := hspec.2.2.2.2 hch
        rw [he.1]
        have hp' : Pristine (procChunk st c).1 :=
          ⟨he.2.2.2.1.trans hp.1, he.2.2.2.2.1.trans hp.2.1,
           he.2.2.2.2.2.trans hp.2.2⟩
        have hs' : (procChunk st c).1.startedMessage = false :=
          he.2.1.trans hs
        simpa using ih (procChunk st c).1 hs' hp'
      · obtain ⟨i, o, r2, heq, -⟩ := hspec.2.2.2.1 hs (by rw [hch]; simp)
        rw [heq]
        simp [List.takeWhile, Event.isMessageStart]

/-- Once `[DONE]` is among the remaining items, the trace ends with the
`message_delta`/`message_stop` trailer, the `stop_reason` reflects
`hasToolUse` at entry or any `tool_use` start in the trace, and nothing
before the trailer is a `message_stop`. -/
theorem runFrom_done_trailer (items : List SSEItem) :
    ∀ st, SSEItem.done ∈ items →
    ∃ pre u, runFrom st items
      = pre ++ [Event.messageDelta
          (if (st.hasToolUse
            || (runFrom st items).any Event.isToolStart) = true
           then "tool_use" else "end_turn") u, Event.messageStop] ∧
      pre.all (fun e => !e.isMessageStop) = true := by
  induction items with
  | nil =>
    intro st h
    cases h
  | cons it rest ih =>
    intro st hmem
    match it with
    | .done =>
      obtain ⟨pre, heq, hall, hany⟩ := doneEvents_spec st
      refine ⟨pre, st.lastUsageOut, ?_, ?_⟩
      · have hanyfull : (doneEvents st).any Event.isToolStart = false := by
          rw [heq]
          simp [List.any_append, hany, Event.isToolStart]
        simp only [runFrom, hanyfull, Bool.or_false]
        exact heq
      · rw [List.all_eq_true]
        intro e he
        rw [List.all_eq_true] at hall
        simp [(blockEvent_classify e (hall e he)).2]
    | .other =>
      cases hmem with
      | tail _ h =>
        obtain ⟨pre, u, heq, hstop⟩ := ih st h
        exact ⟨pre, u, heq, hstop⟩
    | .chunk c =>
      cases hmem with
      | tail _ h =>
        obtain ⟨pre, u, heq, hstop⟩ := ih (procChunk st c).1 h
        have hspec := procChunk_spec st c
        have hnostop : (procChunk st c).2.all
            (fun e => !e.isMessageStop) = true := by
          by_cases hs : st.startedMessage
          · have hall := hspec.2.2.1 hs
            rw [List.all_eq_true] at hall ⊢
            intro e he
            simp [(blockEvent_classify e (hall e he)).2]
          · rw [Bool.not_eq_true] at hs
            rcases hch : c.choices with _ | ⟨d, ds⟩
            · rw [(hspec.2.2.2.2 hch).1]
              rfl
            · obtain ⟨i, o, r2, heq2, hall⟩ := hspec.2.2.2.1 hs
                (by rw [hch]; simp)
              rw [heq2, List.all_cons]
              rw [List.all_eq_true] at hall
              have hr2 : r2.all (fun e => !e.isMessageStop) = true := by
                rw [List.all_eq_true]
                intro e he
                simp [(blockEvent_classify e (hall e he)).2]
              have h1 : (Event.messageStart i o).isMessageStop = false := rfl
              simp [h1, hr2]
        refine ⟨(procChunk st c).2 ++ pre, u, ?_, ?_⟩
        · simp only [runFrom]
          have hR : (st.hasToolUse
              || ((procChunk st c).2
                ++ runFrom (procChunk st c).1 rest).any Event.isToolStart)
              = ((procChunk st c).1.hasToolUse
                || (runFrom (procChunk st c).1 rest).any Event.isToolStart)
              := by
            rw [hspec.2.1, List.any_append, Bool.or_assoc]
          simp only [hR]
          conv_lhs => rw [heq]
          simp [List.append_assoc]
        · simp [List.all_append, hnostop, hstop]

/-- C2: over every classified SSE input, `message_start` is emitted at
most once and before any `content_block_*` event; and whenever the input
contains the `[DONE]` terminator, `message_stop` is emitted exactly once,
as the last event, immediately preceded by a `message_delta` (which
carries the final stop_reason and usage). -/
theorem message_envelope :
    (∀ items : List SSEItem,
      (runFSM items).countP (fun e => e.isMessageStart) ≤ 1) ∧
    (∀ items : List SSEItem,
      ((runFSM items).takeWhile (fun e => !e.isMessageStart)).all
        (fun e => !e.isBlockEvent) = true) ∧
    (∀ items : List SSEItem, SSEItem.done ∈ items →
      (runFSM items).countP (fun e => e.isMessageStop) = 1 ∧
      ∃ pre r u, runFSM items
        = pre ++ [Event.messageDelta r u, Event.messageStop]) := by
  refine ⟨?_, ?_, ?_⟩
  · intro items
    have h := runFrom_msgStart_count items initState
    simpa [runFSM, initState] using h
  · intro items
    exact runFrom_no_early_block items initState rfl ⟨rfl, rfl, rfl⟩
  · intro items hmem
    obtain ⟨pre, u, heq, hstop⟩ := runFrom_done_trailer items initState hmem
    constructor
    · rw [show runFSM items = runFrom initState items from rfl, heq,
        List.countP_append]
      have hpre : pre.countP (fun e => e.isMessageStop) = 0 := by
        rw [List.countP_eq_zero]
        intro e he
        rw [List.all_eq_true] at hstop
        have hne := hstop e he
        simp only [Bool.not_eq_true'] at hne
        simp [hne]
      have hd : (Event.messageDelta
          (if (initState.hasToolUse
            || (runFrom initState items).any Event.isToolStart) = true
           then "tool_use" else "end_turn") u).isMessageStop = false := rfl
      have hsp : (Event.messageStop).isMessageStop = true := rfl
      rw [hpre]
      simp only [List.countP_cons, List.countP_nil, hd, hsp]
      norm_num
    · exact ⟨pre, _, u, heq⟩

/-- Witness for `message_envelope` at a concrete two-fragment stream. -/
theorem message_envelope_witness :
    (runFSM [SSEItem.chunk { choices := [{ content := "Hi".data }] },
      SSEItem.done]).countP (fun e => e.isMessageStart) ≤ 1 ∧
    ((runFSM [SSEItem.chunk { choices := [{ content := "Hi".data }] },
      SSEItem.done]).takeWhile (fun e => !e.isMessageStart)).all
        (fun e => !e.isBlockEvent) = true ∧
    (runFSM [SSEItem.chunk { choices := [{ content := "Hi".data }] },
      SSEItem.done]).countP (fun e => e.isMessageStop) = 1 := by
  refine ⟨message_envelope.1 _, message_envelope.2.1 _, ?_⟩
  exact (message_envelope.2.2 _ (by simp)).1

/-- C7: on a `[DONE]`-terminated stream the final `message_delta` carries
stop_reason `tool_use` exactly when a `tool_use` block start occurs in
the trace and `end_turn` otherwise; `hasToolUse` is set exactly by a
`tool_calls` entry carrying an id and is never cleared. -/
theorem stop_reason_tool_use :
    (∀ items : List SSEItem, SSEItem.done ∈ items →
      ∃ pre u, runFSM items
        = pre ++ [Event.messageDelta
            (if (runFSM items).any Event.isToolStart = true then "tool_use"
             else "end_turn") u, Event.messageStop]) ∧
    (∀ (st : FSMState) (tc : OAToolCallDelta), tc.id ≠ "" →
      (toolCallStep st tc).1.hasToolUse = true) ∧
    (∀ (st : FSMState) (tc : OAToolCallDelta), tc.id = "" →
      (toolCallStep st tc).1.hasToolUse = st.hasToolUse) ∧
    (∀ (st : FSMState) (c : OAStreamChunk), st.hasToolUse = true →
      (procChunk st c).1.hasToolUse = true) := by
  refine ⟨?_, ?_, ?_, ?_⟩
  · intro items hmem
    obtain ⟨pre, u, heq, -⟩ := runFrom_done_trailer items initState hmem
    refine ⟨pre, u, ?_⟩
    have h0 : initState.hasToolUse = false := rfl
    rw [show runFSM items = runFrom initState items from rfl]
    simpa [h0, Bool.false_or] using heq
  · intro st tc hid
    simp only [toolCallStep]
    rw [if_pos (Or.inr hid), if_pos hid]
  · intro st tc hid
    have hid' : ¬ tc.id ≠ "" := by simp [hid]
    simp only [toolCallStep]
    by_cases hidx : tc.index ≠ st.currentToolIndex
    · rw [if_pos (Or.inl hidx), if_neg hid']
      split
      · rfl
      · rfl
    · rw [if_neg (by
        rintro (h | h)
        · exact hidx h
        · exact hid' h)]
  · intro st c h
    have hspec := procChunk_spec st c
    rw [hspec.2.1, h]
    rfl

/-- Witness for `stop_reason_tool_use` at a concrete tool-call stream
and at concrete states. -/
theorem stop_reason_tool_use_witness :
    ((runFSM [SSEItem.chunk { choices := [{ toolCalls :=
        [{ index := 0, id := "X", name := "Y", arguments := "" }] }] },
      SSEItem.done]).reverse.head? = some Event.messageStop) ∧
    (toolCallStep initState
      { index := 0, id := "X", name := "Y", arguments := "" }).1.hasToolUse
      = true ∧
    (toolCallStep { initState with hasToolUse := true }
      { index := 0, id := "", name := "", arguments := "" }).1.hasToolUse
      = true ∧
    (procChunk { initState with hasToolUse := true }
      { choices := [], usage := none }).1.hasToolUse = true := by
  refine ⟨?_, ?_, ?_, ?_⟩
  · obtain ⟨pre, u, heq⟩ := stop_reason_tool_use.1
      [SSEItem.chunk { choices := [{ toolCalls :=
        [{ index := 0, id := "X", name := "Y", arguments := "" }] }] },
       SSEItem.done] (by simp)
    rw [heq]
    simp
  · exact stop_reason_tool_use.2.1 initState
      { index := 0, id := "X", name := "Y", arguments := "" } (by decide)
  · exact stop_reason_tool_use.2.2.1 { initState with hasToolUse := true }
      { index := 0, id := "", name := "", arguments := "" } rfl
  · exact stop_reason_tool_use.2.2.2 { initState with hasToolUse := true }
      { choices := [], usage := none } rfl

end Ant2oa
